import Mathlib

/-!
# Verification of snapcoder-cli (src/index.js)

Shallow embedding of the two core algorithms of the repository:

* `compressImageIfNeeded` (src/index.js lines 16-106): the size-budget
  compressor.  The sharp image library is external; it is modelled by the
  `SharpOps` oracle structure.  Buffers are byte lists; sizes are lengths.
* the lazy-load scroll loop and DOM dimension measurement of
  `captureFullPageOptimized` (src/index.js lines 310-367).

JavaScript numeric details that matter are embedded exactly:

* the stage-3 quality loop `while (quality > 20) { ...; quality -= 10 }`
  operates on exact integers (all values are exactly representable
  doubles), so it attempts qualities 90,80,70,60,50,40,30 and never 20;
* the stage-4 scale loop `while (scale > 0.3) { ...; scale -= 0.1 }`
  operates on IEEE-754 doubles.  The loop variable takes the exact double
  values 0.9, 0.8, 0.7000000000000001, ..., 0.30000000000000016 (seven
  iterations; the eighth value 0.20000000000000015 fails the guard).
  These exact rational values are embedded as the list `jsScaleSeq`;
* `Math.floor(width * scale)` is modelled as the exact rational floor of
  the exact product.  (The double multiplication's rounding is within one
  ulp and cannot move the product across an integer boundary for the
  dimension ranges involved, because every scale value sits within 2e-16
  of a multiple of 1/10 and image dimensions are far below 10^15.)
* `filename.replace('.png', '.jpg')` with a string pattern replaces only
  the first occurrence, case-sensitively: `jsReplaceFirst`.
-/

/-- A raw byte buffer; `length` is its size in bytes. -/
abbrev Buffer := List Nat

/-- The value returned by `compressImageIfNeeded`: `{ buffer, filename }`
(src/index.js lines 21, 64, 94, 105).  There is no further field: in
particular the result carries no success/best-effort tag. -/
structure CompressResult where
  buffer : Buffer
  filename : List Char
deriving Repr, DecidableEq

/-- Chronological record of the codec operations performed, used to state
properties about which encode attempts were made.  `size` is the length of
the encoded output, `none` when the codec call raised an error. -/
inductive Attempt where
  /-- stage-2 pre-resize `.resize(newWidth,newHeight).png()` target box -/
  | preResize (w h : Nat)
  /-- stage-3 `.jpeg({quality, mozjpeg:true})` on the working buffer of the
  recorded dimensions -/
  | jpeg (w h quality : Nat) (size : Option Nat)
  /-- stage-4 `.resize(w,h).jpeg({quality:80, mozjpeg:true})` -/
  | scaleJpeg (w h quality : Nat) (size : Option Nat)
deriving Repr, DecidableEq

/-- The external sharp image library (the codec), as an oracle.  Metadata
reads are total; encode/resize chains may raise (`Except.error`). -/
structure SharpOps where
  /-- `(await sharp(b).metadata()).width` -/
  metaW : Buffer → Nat
  /-- `(await sharp(b).metadata()).height` -/
  metaH : Buffer → Nat
  /-- `sharp(b).resize(w, h, { fit: 'inside' }).png().toBuffer()` -/
  resizePng : Buffer → Nat → Nat → Except String Buffer
  /-- `sharp(b).jpeg({ quality, mozjpeg: true }).toBuffer()` -/
  jpegQ : Buffer → Nat → Except String Buffer
  /-- `sharp(b).resize(w, h, { fit: 'inside' }).jpeg({ quality, mozjpeg: true }).toBuffer()` -/
  resizeJpeg : Buffer → Nat → Nat → Nat → Except String Buffer

/-- `const MAX_FILE_SIZE = 5 * 1024 * 1024` (src/index.js line 14). -/
def MAX_FILE_SIZE : Nat := 5 * 1024 * 1024

/-- `const SHARP_PIXEL_LIMIT = 268402689` (src/index.js line 28). -/
def SHARP_PIXEL_LIMIT : Nat := 268402689

/-- `Math.floor` of a nonnegative rational, as a natural number. -/
def ratFloorNat (q : ℚ) : Nat := (⌊q⌋ : ℤ).toNat

/-- The exact values of the IEEE-754 double loop variable of
`let scale = 0.9; while (scale > 0.3) { ...; scale -= 0.1 }`
(src/index.js lines 78-102).  Each entry is the exact rational value of
the double; the guard compares against the double 0.3
(= 5404319552844595/2^54 < 3/10).  The seven listed values all pass the
guard; the next value of the loop variable, 7205759403792799/2^55
(≈ 0.20000000000000015), fails it, so the loop body runs exactly once per
listed entry (in order) unless exited early. -/
def jsScaleSeq : List ℚ :=
  [ (8106479329266893 : ℚ) / 9007199254740992     -- 0.9
  , (3602879701896397 : ℚ) / 4503599627370496     -- 0.8
  , (6305039478318695 : ℚ) / 9007199254740992     -- 0.7000000000000001
  , (1351079888211149 : ℚ) / 2251799813685248     -- 0.6000000000000001
  , (4503599627370497 : ℚ) / 9007199254740992     -- 0.5000000000000001
  , (1801439850948199 : ℚ) / 4503599627370496     -- 0.40000000000000013
  , (2702159776422299 : ℚ) / 9007199254740992 ]   -- 0.30000000000000016

/-- First index of `s` at which `pat` occurs as a contiguous sublist
(the search of JavaScript `String.prototype.replace` with a string
pattern). -/
def firstMatch (pat : List Char) : List Char → Option Nat
  | [] => if pat = [] then some 0 else none
  | c :: cs =>
    if pat.isPrefixOf (c :: cs) then some 0
    else (firstMatch pat cs).map (· + 1)

/-- JavaScript `s.replace(pat, rep)` for a plain string pattern: replace
only the first occurrence of `pat`, case-sensitively; return `s` unchanged
when `pat` does not occur. -/
def jsReplaceFirst (s pat rep : List Char) : List Char :=
  match firstMatch pat s with
  | none => s
  | some i => s.take i ++ rep ++ s.drop (i + pat.length)

/-- `'.png'` -/
def pngExt : List Char := ".png".data

/-- `'.jpg'` -/
def jpgExt : List Char := ".jpg".data

/-- Stage 3 of `compressImageIfNeeded` (src/index.js lines 51-72):

```
let quality = 90;
let compressed = workingBuffer;
while (quality > 20) {
  try {
    compressed = await sharp(workingBuffer).jpeg({ quality, mozjpeg: true }).toBuffer();
    if (compressed.length <= MAX_FILE_SIZE)
      return { buffer: compressed, filename: newFilename };
  } catch (error) { break; }
  quality -= 10;
}
```

`fuel` is a structural-recursion bound only: called with fuel 8 and
quality 90 the guard `20 < quality` fails (at quality 20) before the fuel
does, so the fuel case is unreachable and the definition is exactly the
JS loop.  Returns (early return if any, current `compressed`, trace). -/
def qualityLoop (S : SharpOps) (workingBuffer : Buffer) (newFilename : List Char) :
    Nat → Nat → Buffer → List Attempt → Option CompressResult × Buffer × List Attempt
  | 0, _, compressed, tr => (none, compressed, tr)
  | fuel + 1, quality, compressed, tr =>
    if 20 < quality then
      match S.jpegQ workingBuffer quality with
      | .ok c =>
        let tr' := tr ++ [Attempt.jpeg (S.metaW workingBuffer) (S.metaH workingBuffer)
                            quality (some c.length)]
        if c.length ≤ MAX_FILE_SIZE then
          (some { buffer := c, filename := newFilename }, c, tr')
        else
          qualityLoop S workingBuffer newFilename fuel (quality - 10) c tr'
      | .error _ =>
        (none, compressed,
          tr ++ [Attempt.jpeg (S.metaW workingBuffer) (S.metaH workingBuffer) quality none])
    else (none, compressed, tr)

/-- Stage 4 of `compressImageIfNeeded` (src/index.js lines 77-102):

```
const currentMetadata = await sharp(workingBuffer).metadata();
let scale = 0.9;
while (scale > 0.3) {
  const newWidth = Math.floor(currentMetadata.width * scale);
  const newHeight = Math.floor(currentMetadata.height * scale);
  try {
    compressed = await sharp(workingBuffer)
      .resize(newWidth, newHeight, { fit: 'inside' })
      .jpeg({ quality: 80, mozjpeg: true }).toBuffer();
    if (compressed.length <= MAX_FILE_SIZE)
      return { buffer: compressed, filename: newFilename };
  } catch (error) { break; }
  scale -= 0.1;
}
```

The iteration is over `jsScaleSeq`, the exact sequence of double values
taken by `scale` (see its docstring); `cw`/`ch` are
`currentMetadata.width/height`, read once before the loop. -/
def scaleLoop (S : SharpOps) (workingBuffer : Buffer) (newFilename : List Char) (cw ch : Nat) :
    List ℚ → Buffer → List Attempt → Option CompressResult × Buffer × List Attempt
  | [], compressed, tr => (none, compressed, tr)
  | s :: rest, compressed, tr =>
    let newWidth := ratFloorNat ((cw : ℚ) * s)
    let newHeight := ratFloorNat ((ch : ℚ) * s)
    match S.resizeJpeg workingBuffer newWidth newHeight 80 with
    | .ok c =>
      let tr' := tr ++ [Attempt.scaleJpeg newWidth newHeight 80 (some c.length)]
      if c.length ≤ MAX_FILE_SIZE then
        (some { buffer := c, filename := newFilename }, c, tr')
      else
        scaleLoop S workingBuffer newFilename cw ch rest c tr'
    | .error _ =>
      (none, compressed, tr ++ [Attempt.scaleJpeg newWidth newHeight 80 none])

/-- Stage 2 of `compressImageIfNeeded` (src/index.js lines 26-46): the
pixel-ceiling guard and pre-resize.

```
const metadata = await sharp(buffer).metadata();
const totalPixels = metadata.width * metadata.height;
if (totalPixels > SHARP_PIXEL_LIMIT) {
  const scale = Math.sqrt(SHARP_PIXEL_LIMIT / totalPixels) * 0.95;
  const newWidth = Math.floor(metadata.width * scale);
  const newHeight = Math.floor(metadata.height * scale);
  workingBuffer = await sharp(buffer).resize(newWidth, newHeight, { fit: 'inside' }).png().toBuffer();
}
```

The resize call is NOT inside a try/catch: an error from it propagates out
of `compressImageIfNeeded`.  `preScale totalPixels` models the double
computation `Math.sqrt(SHARP_PIXEL_LIMIT / totalPixels) * 0.95`; theorems
characterise it by tight rational bounds (the FP computation is correctly
rounded per operation, hence within relative error 1e-10 of the exact
value by a huge margin). -/
def preStepResult (S : SharpOps) (preScale : Nat → ℚ) (buffer : Buffer) :
    Except String (Buffer × List Attempt) :=
  let totalPixels := S.metaW buffer * S.metaH buffer
  if SHARP_PIXEL_LIMIT < totalPixels then
    let scale := preScale totalPixels
    let newWidth := ratFloorNat ((S.metaW buffer : ℚ) * scale)
    let newHeight := ratFloorNat ((S.metaH buffer : ℚ) * scale)
    match S.resizePng buffer newWidth newHeight with
    | .ok wb => .ok (wb, [Attempt.preResize newWidth newHeight])
    | .error e => .error e
  else .ok (buffer, [])

/-- `compressImageIfNeeded(buffer, filename)` (src/index.js lines 16-106),
instrumented with the chronological trace of codec attempts.  Stages:

1. pass-through when `buffer.length <= MAX_FILE_SIZE` (lines 19-22);
2. `newFilename = filename.replace('.png', '.jpg')` (line 31) and the
   pixel-ceiling pre-resize (`preStepResult`, lines 26-46);
3. the JPEG quality loop (`qualityLoop`, lines 51-72);
4. the scale loop (`scaleLoop`, lines 77-102) starting from the
   `compressed` value left by stage 3;
5. best-effort: return the current `compressed` with `newFilename`
   (line 105). -/
def compressImageIfNeeded (S : SharpOps) (preScale : Nat → ℚ)
    (buffer : Buffer) (filename : List Char) :
    Except String (CompressResult × List Attempt) :=
  let originalSize := buffer.length
  if originalSize ≤ MAX_FILE_SIZE then
    .ok ({ buffer := buffer, filename := filename }, [])
  else
    let newFilename := jsReplaceFirst filename pngExt jpgExt
    match preStepResult S preScale buffer with
    | .error e => .error e
    | .ok (workingBuffer, tr0) =>
      match qualityLoop S workingBuffer newFilename 8 90 workingBuffer tr0 with
      | (some r, _, tr) => .ok (r, tr)
      | (none, compressed1, tr1) =>
        let cw := S.metaW workingBuffer
        let ch := S.metaH workingBuffer
        match scaleLoop S workingBuffer newFilename cw ch jsScaleSeq compressed1 tr1 with
        | (some r, _, tr) => .ok (r, tr)
        | (none, compressed2, tr2) =>
          .ok ({ buffer := compressed2, filename := newFilename }, tr2)

/-- The qualities of the stage-3 JPEG attempts recorded in a trace, in
order. -/
def jpegQualities : List Attempt → List Nat
  | [] => []
  | Attempt.jpeg _ _ q _ :: tr => q :: jpegQualities tr
  | _ :: tr => jpegQualities tr

/-- The `(width, height, quality)` boxes of the stage-4 resize+encode
attempts recorded in a trace, in order. -/
def scaleBoxes : List Attempt → List (Nat × Nat × Nat)
  | [] => []
  | Attempt.scaleJpeg w h q _ :: tr => (w, h, q) :: scaleBoxes tr
  | _ :: tr => scaleBoxes tr

/-- The pixel count (width × height) an attempt operates against. -/
def attemptPixels : Attempt → Nat
  | Attempt.preResize w h => w * h
  | Attempt.jpeg w h _ _ => w * h
  | Attempt.scaleJpeg w h _ _ => w * h

/-- Keep the elements of a list up to and including the first one
satisfying `p` (the shape of a first-success linear search). -/
def upToFirst (p : α → Bool) : List α → List α
  | [] => []
  | a :: as => if p a then [a] else a :: upToFirst p as

/-- The quality values attempted by a `while (20 < quality)` loop with
step `quality -= 10`, bounded by `fuel` iterations. -/
def qualSeq : Nat → Nat → List Nat
  | 0, _ => []
  | fuel + 1, q => if 20 < q then q :: qualSeq fuel (q - 10) else []

/-! ## Full-page capture: scroll-elicitation loop and DOM measurement -/

/-- `const distance = 100` (src/index.js line 318). -/
def SCROLL_DISTANCE : Nat := 100

/-- The scroll-elicitation loop of `captureFullPageOptimized`
(src/index.js lines 315-331):

```
let totalHeight = 0;
const distance = 100;
const timer = setInterval(() => {
  const scrollHeight = document.body.scrollHeight;
  window.scrollBy(0, distance);
  totalHeight += distance;
  if (totalHeight >= scrollHeight) { clearInterval(timer); ... resolve(); }
}, 100);
```

`heights tick` is the value `document.body.scrollHeight` reads at the
given 0-indexed timer tick (the page may grow between ticks).  `fuel`
bounds the number of ticks simulated; the result is the number of
iterations run when the loop cleared its timer within `fuel` ticks, and
`none` when `fuel` ticks were not enough. -/
def scrollLoop (heights : Nat → Nat) : Nat → Nat → Nat → Option Nat
  | 0, _, _ => none
  | fuel + 1, tick, totalHeight =>
    let scrollHeight := heights tick
    let totalHeight' := totalHeight + SCROLL_DISTANCE
    if scrollHeight ≤ totalHeight' then some (tick + 1)
    else scrollLoop heights fuel (tick + 1) totalHeight'

/-- The DOM measurements read by the dimension probe of
`captureFullPageOptimized` (src/index.js lines 336-358), together with the
two body client measurements that exist in the DOM but are NOT read by the
code. -/
structure DomMeasurements where
  bodyScrollWidth : Nat
  bodyOffsetWidth : Nat
  bodyClientWidth : Nat
  htmlClientWidth : Nat
  htmlScrollWidth : Nat
  htmlOffsetWidth : Nat
  bodyScrollHeight : Nat
  bodyOffsetHeight : Nat
  bodyClientHeight : Nat
  htmlClientHeight : Nat
  htmlScrollHeight : Nat
  htmlOffsetHeight : Nat
deriving Repr, DecidableEq

/-- `width = Math.max(Math.max(body.scrollWidth, body.offsetWidth),
Math.max(html.clientWidth, html.scrollWidth, html.offsetWidth))`
(src/index.js lines 340-343). -/
def pageWidth (d : DomMeasurements) : Nat :=
  max (max d.bodyScrollWidth d.bodyOffsetWidth)
      (max d.htmlClientWidth (max d.htmlScrollWidth d.htmlOffsetWidth))

/-- `height = Math.max(body.scrollHeight, body.offsetHeight,
html.clientHeight, html.scrollHeight, html.offsetHeight)`
(src/index.js lines 346-352). -/
def pageHeight (d : DomMeasurements) : Nat :=
  max d.bodyScrollHeight
    (max d.bodyOffsetHeight
      (max d.htmlClientHeight (max d.htmlScrollHeight d.htmlOffsetHeight)))

/-- The width described by the spec sentence of C9: the maximum across the
client, scroll and offset measurements of both the root element and the
body — six sources, including `body.clientWidth`. -/
def claimWidth (d : DomMeasurements) : Nat :=
  max (max d.bodyClientWidth (max d.bodyScrollWidth d.bodyOffsetWidth))
      (max d.htmlClientWidth (max d.htmlScrollWidth d.htmlOffsetWidth))

/-- The height described by the spec sentence of C9: six sources,
including `body.clientHeight`. -/
def claimHeight (d : DomMeasurements) : Nat :=
  max (max d.bodyClientHeight (max d.bodyScrollHeight d.bodyOffsetHeight))
      (max d.htmlClientHeight (max d.htmlScrollHeight d.htmlOffsetHeight))

/-! ## Helper lemmas about traces and the loops -/

theorem jpegQualities_append (l₁ l₂ : List Attempt) :
    jpegQualities (l₁ ++ l₂) = jpegQualities l₁ ++ jpegQualities l₂ := by
  induction l₁ with
  | nil => rfl
  | cons a l ih => cases a <;> simp [jpegQualities, ih]

theorem scaleBoxes_append (l₁ l₂ : List Attempt) :
    scaleBoxes (l₁ ++ l₂) = scaleBoxes l₁ ++ scaleBoxes l₂ := by
  induction l₁ with
  | nil => rfl
  | cons a l ih => cases a <;> simp [scaleBoxes, ih]

theorem upToFirst_map (σ : α → β) (p : β → Bool) (l : List α) :
    upToFirst p (l.map σ) = (upToFirst (fun a => p (σ a)) l).map σ := by
  induction l with
  | nil => rfl
  | cons a l ih =>
    by_cases h : p (σ a) <;> simp [upToFirst, h, ih]

theorem qualityLoop_some (S : SharpOps) (wb : Buffer) (fn : List Char) :
    ∀ fuel q c tr r b tr', qualityLoop S wb fn fuel q c tr = (some r, b, tr') →
      r.buffer.length ≤ MAX_FILE_SIZE ∧ r.filename = fn ∧ r.buffer = b := by
  intro fuel
  induction fuel with
  | zero => intro q c tr r b tr' h; simp [qualityLoop] at h
  | succ n ih =>
    intro q c tr r b tr' h
    simp only [qualityLoop] at h
    split at h
    · split at h
      · split at h
        · cases h
          refine ⟨by assumption, rfl, rfl⟩
        · exact ih _ _ _ _ _ _ h
      · simp at h
    · simp at h

theorem scaleLoop_some (S : SharpOps) (wb : Buffer) (fn : List Char) (cw ch : Nat) :
    ∀ l c tr r b tr', scaleLoop S wb fn cw ch l c tr = (some r, b, tr') →
      r.buffer.length ≤ MAX_FILE_SIZE ∧ r.filename = fn ∧ r.buffer = b := by
  intro l
  induction l with
  | nil => intro c tr r b tr' h; simp [scaleLoop] at h
  | cons s rest ih =>
    intro c tr r b tr' h
    simp only [scaleLoop] at h
    split at h
    · split at h
      · cases h
        refine ⟨by assumption, rfl, rfl⟩
      · exact ih _ _ _ _ _ h
    · simp at h

theorem qualityLoop_scaleBoxes (S : SharpOps) (wb : Buffer) (fn : List Char) :
    ∀ fuel q c tr, scaleBoxes (qualityLoop S wb fn fuel q c tr).2.2 = scaleBoxes tr := by
  intro fuel
  induction fuel with
  | zero => intro q c tr; simp [qualityLoop]
  | succ n ih =>
    intro q c tr
    simp only [qualityLoop]
    split
    · cases hj : S.jpegQ wb q with
      | ok c' =>
        by_cases hl : c'.length ≤ MAX_FILE_SIZE
        · simp [hl, scaleBoxes_append, scaleBoxes]
        · simp [hl, ih, scaleBoxes_append, scaleBoxes]
      | error e => simp [scaleBoxes_append, scaleBoxes]
    · rfl

theorem scaleLoop_jpegQualities (S : SharpOps) (wb : Buffer) (fn : List Char) (cw ch : Nat) :
    ∀ l c tr, jpegQualities (scaleLoop S wb fn cw ch l c tr).2.2 = jpegQualities tr := by
  intro l
  induction l with
  | nil => intro c tr; simp [scaleLoop]
  | cons s rest ih =>
    intro c tr
    simp only [scaleLoop]
    cases hj : S.resizeJpeg wb (ratFloorNat ((cw : ℚ) * s)) (ratFloorNat ((ch : ℚ) * s)) 80 with
    | ok c' =>
      by_cases hl : c'.length ≤ MAX_FILE_SIZE
      · simp [hl, jpegQualities_append, jpegQualities]
      · simp [hl, ih, jpegQualities_append, jpegQualities]
    | error e => simp [jpegQualities_append, jpegQualities]

theorem qualityLoop_total_trace (S : SharpOps) (wb : Buffer) (fn : List Char)
    (jf : Nat → Buffer) (hjf : ∀ q, S.jpegQ wb q = .ok (jf q)) :
    ∀ fuel q c tr,
      jpegQualities (qualityLoop S wb fn fuel q c tr).2.2
        = jpegQualities tr
            ++ upToFirst (fun q' => decide ((jf q').length ≤ MAX_FILE_SIZE)) (qualSeq fuel q) := by
  intro fuel
  induction fuel with
  | zero => intro q c tr; simp [qualityLoop, qualSeq, upToFirst]
  | succ n ih =>
    intro q c tr
    simp only [qualityLoop, qualSeq, hjf q]
    by_cases hq : 20 < q
    · rw [if_pos hq, if_pos hq]
      by_cases hl : (jf q).length ≤ MAX_FILE_SIZE
      · simp [hl, upToFirst, jpegQualities_append, jpegQualities]
      · simp [hl, upToFirst, ih, jpegQualities_append, jpegQualities]
    · simp [hq, upToFirst]

theorem qualityLoop_isSome (S : SharpOps) (wb : Buffer) (fn : List Char)
    (jf : Nat → Buffer) (hjf : ∀ q, S.jpegQ wb q = .ok (jf q)) :
    ∀ fuel q c tr,
      (qualityLoop S wb fn fuel q c tr).1.isSome
        ↔ ∃ q' ∈ qualSeq fuel q, (jf q').length ≤ MAX_FILE_SIZE := by
  intro fuel
  induction fuel with
  | zero => intro q c tr; simp [qualityLoop, qualSeq]
  | succ n ih =>
    intro q c tr
    simp only [qualityLoop, qualSeq, hjf q]
    by_cases hq : 20 < q
    · rw [if_pos hq, if_pos hq]
      by_cases hl : (jf q).length ≤ MAX_FILE_SIZE
      · simp [hl]
      · simp [hl, ih]
    · simp [hq]

theorem scaleLoop_total_trace (S : SharpOps) (wb : Buffer) (fn : List Char) (cw ch : Nat)
    (rf : Nat → Nat → Nat → Buffer)
    (hrf : ∀ w h q, S.resizeJpeg wb w h q = .ok (rf w h q)) :
    ∀ l c tr,
      scaleBoxes (scaleLoop S wb fn cw ch l c tr).2.2
        = scaleBoxes tr
            ++ (upToFirst (fun s => decide
                  ((rf (ratFloorNat ((cw : ℚ) * s)) (ratFloorNat ((ch : ℚ) * s)) 80).length
                     ≤ MAX_FILE_SIZE)) l).map
                (fun s => (ratFloorNat ((cw : ℚ) * s), ratFloorNat ((ch : ℚ) * s), 80)) := by
  intro l
  induction l with
  | nil => intro c tr; simp [scaleLoop, upToFirst]
  | cons s rest ih =>
    intro c tr
    simp only [scaleLoop, hrf]
    by_cases hl : (rf (ratFloorNat ((cw : ℚ) * s)) (ratFloorNat ((ch : ℚ) * s)) 80).length
        ≤ MAX_FILE_SIZE
    · simp [hl, upToFirst, scaleBoxes_append, scaleBoxes]
    · simp [hl, upToFirst, ih, scaleBoxes_append, scaleBoxes]

theorem scaleLoop_isSome (S : SharpOps) (wb : Buffer) (fn : List Char) (cw ch : Nat)
    (rf : Nat → Nat → Nat → Buffer)
    (hrf : ∀ w h q, S.resizeJpeg wb w h q = .ok (rf w h q)) :
    ∀ l c tr,
      (scaleLoop S wb fn cw ch l c tr).1.isSome
        ↔ ∃ s ∈ l,
            (rf (ratFloorNat ((cw : ℚ) * s)) (ratFloorNat ((ch : ℚ) * s)) 80).length
              ≤ MAX_FILE_SIZE := by
  intro l
  induction l with
  | nil => intro c tr; simp [scaleLoop]
  | cons s rest ih =>
    intro c tr
    simp only [scaleLoop, hrf]
    by_cases hl : (rf (ratFloorNat ((cw : ℚ) * s)) (ratFloorNat ((ch : ℚ) * s)) 80).length
        ≤ MAX_FILE_SIZE
    · simp [hl]
    · simp [hl, ih]

theorem scaleLoop_all_fail (S : SharpOps) (wb : Buffer) (fn : List Char) (cw ch : Nat)
    (rf : Nat → Nat → Nat → Buffer)
    (hrf : ∀ w h q, S.resizeJpeg wb w h q = .ok (rf w h q)) :
    ∀ l c tr (hne : l ≠ [])
      (hfail : ∀ s ∈ l,
        MAX_FILE_SIZE
          < (rf (ratFloorNat ((cw : ℚ) * s)) (ratFloorNat ((ch : ℚ) * s)) 80).length),
      (scaleLoop S wb fn cw ch l c tr).1 = none ∧
      (scaleLoop S wb fn cw ch l c tr).2.1
        = rf (ratFloorNat ((cw : ℚ) * l.getLast hne))
            (ratFloorNat ((ch : ℚ) * l.getLast hne)) 80 := by
  intro l
  induction l with
  | nil => intro c tr hne; exact absurd rfl hne
  | cons s rest ih =>
    intro c tr hne hfail
    have hs := hfail s (by simp)
    simp only [scaleLoop, hrf]
    rw [if_neg (by omega)]
    cases rest with
    | nil => simp [scaleLoop]
    | cons t rest' =>
      have hne' : t :: rest' ≠ [] := by simp
      have := ih (rf (ratFloorNat ((cw : ℚ) * s)) (ratFloorNat ((ch : ℚ) * s)) 80)
        (tr ++ [Attempt.scaleJpeg (ratFloorNat ((cw : ℚ) * s)) (ratFloorNat ((ch : ℚ) * s)) 80
          (some (rf (ratFloorNat ((cw : ℚ) * s)) (ratFloorNat ((ch : ℚ) * s)) 80).length)])
        hne' (fun u hu => hfail u (by simp [hu]))
      rw [List.getLast_cons hne']
      exact this

theorem qualityLoop_mem (S : SharpOps) (wb : Buffer) (fn : List Char) :
    ∀ fuel q c tr a, a ∈ (qualityLoop S wb fn fuel q c tr).2.2 →
      a ∈ tr ∨ ∃ q' sz, a = Attempt.jpeg (S.metaW wb) (S.metaH wb) q' sz := by
  intro fuel
  induction fuel with
  | zero => intro q c tr a h; simp [qualityLoop] at h; exact Or.inl h
  | succ n ih =>
    intro q c tr a h
    simp only [qualityLoop] at h
    by_cases hq : 20 < q
    · rw [if_pos hq] at h
      cases hj : S.jpegQ wb q with
      | ok c' =>
        rw [hj] at h
        simp only at h
        by_cases hl : c'.length ≤ MAX_FILE_SIZE
        · rw [if_pos hl] at h
          simp only [List.mem_append, List.mem_singleton] at h
          rcases h with h | h
          · exact Or.inl h
          · exact Or.inr ⟨q, some c'.length, h⟩
        · rw [if_neg hl] at h
          rcases ih _ _ _ _ h with h' | h'
          · simp only [List.mem_append, List.mem_singleton] at h'
            rcases h' with h'' | h''
            · exact Or.inl h''
            · exact Or.inr ⟨q, some c'.length, h''⟩
          · exact Or.inr h'
      | error e =>
        rw [hj] at h
        simp only at h
        simp only [List.mem_append, List.mem_singleton] at h
        rcases h with h | h
        · exact Or.inl h
        · exact Or.inr ⟨q, none, h⟩
    · rw [if_neg hq] at h
      exact Or.inl h

theorem scaleLoop_mem (S : SharpOps) (wb : Buffer) (fn : List Char) (cw ch : Nat) :
    ∀ l c tr a, a ∈ (scaleLoop S wb fn cw ch l c tr).2.2 →
      a ∈ tr ∨ ∃ s ∈ l, ∃ sz,
        a = Attempt.scaleJpeg (ratFloorNat ((cw : ℚ) * s)) (ratFloorNat ((ch : ℚ) * s)) 80 sz := by
  intro l
  induction l with
  | nil => intro c tr a h; simp [scaleLoop] at h; exact Or.inl h
  | cons s rest ih =>
    intro c tr a h
    simp only [scaleLoop] at h
    cases hj : S.resizeJpeg wb (ratFloorNat ((cw : ℚ) * s)) (ratFloorNat ((ch : ℚ) * s)) 80 with
    | ok c' =>
      rw [hj] at h
      simp only at h
      by_cases hl : c'.length ≤ MAX_FILE_SIZE
      · rw [if_pos hl] at h
        simp only [List.mem_append, List.mem_singleton] at h
        rcases h with h | h
        · exact Or.inl h
        · exact Or.inr ⟨s, by simp, some c'.length, h⟩
      · rw [if_neg hl] at h
        rcases ih _ _ _ h with h' | h'
        · simp only [List.mem_append, List.mem_singleton] at h'
          rcases h' with h'' | h''
          · exact Or.inl h''
          · exact Or.inr ⟨s, by simp, some c'.length, h''⟩
        · rcases h' with ⟨u, hu, sz, ha⟩
          exact Or.inr ⟨u, by simp [hu], sz, ha⟩
    | error e =>
      rw [hj] at h
      simp only at h
      simp only [List.mem_append, List.mem_singleton] at h
      rcases h with h | h
      · exact Or.inl h
      · exact Or.inr ⟨s, by simp, none, h⟩

/-! ## Arithmetic lemmas about `ratFloorNat` -/

theorem ratFloorNat_le (q : ℚ) (h : 0 ≤ q) : (ratFloorNat q : ℚ) ≤ q := by
  unfold ratFloorNat
  have h0 : (0 : ℤ) ≤ ⌊q⌋ := Int.floor_nonneg.mpr h
  rw [show (((⌊q⌋ : ℤ).toNat : ℕ) : ℚ) = ((⌊q⌋ : ℤ) : ℚ) by
    exact_mod_cast Int.toNat_of_nonneg h0]
  exact Int.floor_le q

/-- `Math.floor(c * s)` equals the exact `c * m / 10` whenever `s` is
within `10^-10` above `m/10` and `c ≤ 10^9`: the gap `c * (s - m/10)` is
below `1/10`, too small to push `c*m/10` (a multiple of `1/10`) past the
next integer. -/
theorem ratFloorNat_tenths (c m : Nat) (s : ℚ)
    (hm : (m : ℚ) / 10 ≤ s) (hs : s < (m : ℚ) / 10 + 1 / 10 ^ 10)
    (hc : c ≤ 10 ^ 9) :
    ratFloorNat ((c : ℚ) * s) = c * m / 10 := by
  have hr : c * m % 10 < 10 := Nat.mod_lt _ (by norm_num)
  have hdm : (10 : ℚ) * ((c * m / 10 : Nat) : ℚ) + ((c * m % 10 : Nat) : ℚ) = ((c : ℚ) * (m : ℚ)) := by
    have := Nat.div_add_mod (c * m) 10
    have h' : ((10 * (c * m / 10) + c * m % 10 : Nat) : ℚ) = ((c * m : Nat) : ℚ) := by
      exact_mod_cast congrArg (fun n : Nat => (n : ℚ)) this
    push_cast at h'
    push_cast
    linarith
  have hx1 : ((c : ℚ) * m) / 10 ≤ (c : ℚ) * s := by
    have : (c : ℚ) * ((m : ℚ) / 10) ≤ (c : ℚ) * s :=
      mul_le_mul_of_nonneg_left hm (by positivity)
    linarith [this]
  have hx2 : (c : ℚ) * s < ((c : ℚ) * m) / 10 + 1 / 10 := by
    rcases Nat.eq_zero_or_pos c with hc0 | hc0
    · subst hc0
      push_cast
      norm_num
    · have h1 : (c : ℚ) * s < (c : ℚ) * ((m : ℚ) / 10 + 1 / 10 ^ 10) :=
        mul_lt_mul_of_pos_left hs (by exact_mod_cast hc0)
      have h2 : (c : ℚ) * (1 / 10 ^ 10) ≤ (10 : ℚ) ^ 9 * (1 / 10 ^ 10) := by
        apply mul_le_mul_of_nonneg_right _ (by norm_num)
        exact_mod_cast hc
      have h3 : (10 : ℚ) ^ 9 * (1 / 10 ^ 10) = 1 / 10 := by norm_num
      have h4 : (c : ℚ) * ((m : ℚ) / 10 + 1 / 10 ^ 10)
          = (c : ℚ) * ((m : ℚ) / 10) + (c : ℚ) * (1 / 10 ^ 10) := by ring
      have h5 : (c : ℚ) * ((m : ℚ) / 10) = ((c : ℚ) * m) / 10 := by ring
      linarith
  have hq1 : ((c * m / 10 : Nat) : ℚ) ≤ ((c : ℚ) * m) / 10 := by
    have hr0 : (0 : ℚ) ≤ ((c * m % 10 : Nat) : ℚ) := by positivity
    linarith [hdm]
  have hr9 : ((c * m % 10 : Nat) : ℚ) ≤ 9 := by exact_mod_cast Nat.lt_succ_iff.mp hr
  have hq2 : ((c : ℚ) * m) / 10 ≤ ((c * m / 10 : Nat) : ℚ) + 9 / 10 := by
    linarith [hdm]
  have hcast : (((c * m / 10 : Nat) : ℤ) : ℚ) = ((c * m / 10 : Nat) : ℚ) := by
    norm_cast
  have hfloor : ⌊(c : ℚ) * s⌋ = ((c * m / 10 : Nat) : ℤ) := by
    rw [Int.floor_eq_iff]
    rw [hcast]
    constructor
    · linarith
    · linarith
  unfold ratFloorNat
  rw [hfloor]
  exact Int.toNat_natCast _

/-- Each double in `jsScaleSeq` lies within `10^-10` above its nominal
value `m/10`, `m = 9,...,3`; consequently `Math.floor(dim * scale)` agrees
with the exact nominal `dim * m / 10` for all realistic dimensions. -/
theorem jsScale_boxes (cw ch : Nat) (hcw : cw ≤ 10 ^ 9) (hch : ch ≤ 10 ^ 9) :
    jsScaleSeq.map (fun s => (ratFloorNat ((cw : ℚ) * s), ratFloorNat ((ch : ℚ) * s), 80))
      = [9, 8, 7, 6, 5, 4, 3].map (fun m => (cw * m / 10, ch * m / 10, 80)) := by
  simp only [jsScaleSeq, List.map_cons, List.map_nil]
  rw [ratFloorNat_tenths cw 9 _ (by norm_num) (by norm_num) hcw,
      ratFloorNat_tenths ch 9 _ (by norm_num) (by norm_num) hch,
      ratFloorNat_tenths cw 8 _ (by norm_num) (by norm_num) hcw,
      ratFloorNat_tenths ch 8 _ (by norm_num) (by norm_num) hch,
      ratFloorNat_tenths cw 7 _ (by norm_num) (by norm_num) hcw,
      ratFloorNat_tenths ch 7 _ (by norm_num) (by norm_num) hch,
      ratFloorNat_tenths cw 6 _ (by norm_num) (by norm_num) hcw,
      ratFloorNat_tenths ch 6 _ (by norm_num) (by norm_num) hch,
      ratFloorNat_tenths cw 5 _ (by norm_num) (by norm_num) hcw,
      ratFloorNat_tenths ch 5 _ (by norm_num) (by norm_num) hch,
      ratFloorNat_tenths cw 4 _ (by norm_num) (by norm_num) hcw,
      ratFloorNat_tenths ch 4 _ (by norm_num) (by norm_num) hch,
      ratFloorNat_tenths cw 3 _ (by norm_num) (by norm_num) hcw,
      ratFloorNat_tenths ch 3 _ (by norm_num) (by norm_num) hch]

theorem jsScaleSeq_unit : ∀ s ∈ jsScaleSeq, 0 ≤ s ∧ s ≤ 1 := by
  intro s hs
  simp only [jsScaleSeq, List.mem_cons, List.not_mem_nil, or_false] at hs
  rcases hs with rfl | rfl | rfl | rfl | rfl | rfl | rfl <;> norm_num

theorem preStep_no_resize (S : SharpOps) (ps : Nat → ℚ) (buffer : Buffer)
    (h : S.metaW buffer * S.metaH buffer ≤ SHARP_PIXEL_LIMIT) :
    preStepResult S ps buffer = .ok (buffer, []) := by
  unfold preStepResult
  rw [if_neg (Nat.not_lt.mpr h)]

theorem preStep_ok_shape (S : SharpOps) (ps : Nat → ℚ) (buffer wb : Buffer)
    (tr0 : List Attempt) (h : preStepResult S ps buffer = .ok (wb, tr0)) :
    jpegQualities tr0 = [] ∧ scaleBoxes tr0 = [] := by
  simp only [preStepResult] at h
  split at h
  · cases hr : S.resizePng buffer
      (ratFloorNat ((S.metaW buffer : ℚ) * ps (S.metaW buffer * S.metaH buffer)))
      (ratFloorNat ((S.metaH buffer : ℚ) * ps (S.metaW buffer * S.metaH buffer))) with
    | ok wb' =>
      rw [hr] at h
      simp only at h
      cases h
      exact ⟨rfl, rfl⟩
    | error e =>
      rw [hr] at h
      simp at h
  · cases h
    exact ⟨rfl, rfl⟩

theorem compress_over (S : SharpOps) (ps : Nat → ℚ) (buffer : Buffer) (fn : List Char)
    (wb : Buffer) (tr0 : List Attempt)
    (h1 : MAX_FILE_SIZE < buffer.length)
    (hpre : preStepResult S ps buffer = .ok (wb, tr0)) :
    compressImageIfNeeded S ps buffer fn =
      match qualityLoop S wb (jsReplaceFirst fn pngExt jpgExt) 8 90 wb tr0 with
      | (some r, _, tr) => .ok (r, tr)
      | (none, c1, tr1) =>
        match scaleLoop S wb (jsReplaceFirst fn pngExt jpgExt) (S.metaW wb) (S.metaH wb)
            jsScaleSeq c1 tr1 with
        | (some r, _, tr) => .ok (r, tr)
        | (none, c2, tr2) =>
          .ok ({ buffer := c2, filename := jsReplaceFirst fn pngExt jpgExt }, tr2) := by
  unfold compressImageIfNeeded
  rw [if_neg (Nat.not_le.mpr h1), hpre]

/-! ## Lemmas about `firstMatch` / `jsReplaceFirst` -/

theorem firstMatch_none_spec (pat : List Char) :
    ∀ s, firstMatch pat s = none → ∀ i, ¬ pat.isPrefixOf (s.drop i) := by
  intro s
  induction s with
  | nil =>
    intro h i
    simp only [firstMatch] at h
    split at h
    · simp at h
    · cases pat with
      | nil => simp_all
      | cons p ps => simp [List.isPrefixOf]
  | cons c cs ih =>
    intro h i
    simp only [firstMatch] at h
    split at h
    · simp at h
    · cases i with
      | zero => simpa using (by assumption : ¬ pat.isPrefixOf (c :: cs))
      | succ j =>
        have hm : firstMatch pat cs = none := by
          cases hmm : firstMatch pat cs with
          | none => rfl
          | some k => rw [hmm] at h; simp at h
        simpa using ih hm j

theorem firstMatch_some_spec (pat : List Char) :
    ∀ s i, firstMatch pat s = some i →
      pat.isPrefixOf (s.drop i) ∧ ∀ j < i, ¬ pat.isPrefixOf (s.drop j) := by
  intro s
  induction s with
  | nil =>
    intro i h
    simp only [firstMatch] at h
    split at h
    · cases h
      subst_vars
      simp_all
    · simp at h
  | cons c cs ih =>
    intro i h
    simp only [firstMatch] at h
    by_cases hp : pat.isPrefixOf (c :: cs)
    · rw [if_pos hp] at h
      cases h
      exact ⟨hp, by omega⟩
    · rw [if_neg hp] at h
      cases hm : firstMatch pat cs with
      | none => rw [hm] at h; simp at h
      | some i' =>
        rw [hm] at h
        simp at h
        subst h
        obtain ⟨h1, h2⟩ := ih i' hm
        refine ⟨by simpa using h1, ?_⟩
        intro j hj
        cases j with
        | zero => simpa using hp
        | succ j' =>
          intro hpre
          exact h2 j' (by omega) (by simpa using hpre)

theorem jsReplaceFirst_no_occurrence (s pat rep : List Char)
    (h : ∀ a b, s ≠ a ++ pat ++ b) : jsReplaceFirst s pat rep = s := by
  unfold jsReplaceFirst
  cases hm : firstMatch pat s with
  | none => rfl
  | some i =>
    obtain ⟨h1, _⟩ := firstMatch_some_spec pat s i hm
    obtain ⟨b, hb⟩ := List.isPrefixOf_iff_prefix.mp h1
    refine absurd ?_ (h (s.take i) b)
    rw [List.append_assoc, hb]
    exact (List.take_append_drop i s).symm

theorem jsReplaceFirst_first_occurrence (s pat rep a b : List Char)
    (hs : s = a ++ pat ++ b)
    (hfirst : ∀ j < a.length, ¬ pat.isPrefixOf (s.drop j)) :
    jsReplaceFirst s pat rep = a ++ rep ++ b := by
  have hpre : pat.isPrefixOf (s.drop a.length) := by
    subst hs
    rw [List.append_assoc, List.drop_left]
    exact List.isPrefixOf_iff_prefix.mpr (List.prefix_append pat b)
  cases hm : firstMatch pat s with
  | none => exact absurd hpre (firstMatch_none_spec pat s hm a.length)
  | some i =>
    obtain ⟨h1, h2⟩ := firstMatch_some_spec pat s i hm
    have hi_le : i ≤ a.length := by
      by_contra hlt
      exact h2 a.length (by omega) hpre
    have hi_ge : a.length ≤ i := by
      by_contra hlt
      exact hfirst i (by omega) h1
    have hieq : i = a.length := le_antisymm hi_le hi_ge
    subst hieq
    unfold jsReplaceFirst
    rw [hm]
    simp only
    subst hs
    have ht : List.take a.length (a ++ (pat ++ b)) = a := by
      have := List.take_left a (pat ++ b)
      simpa using this
    have hd : List.drop (a.length + pat.length) (a ++ (pat ++ b)) = b := by
      rw [← List.drop_drop]
      have h1 : List.drop a.length (a ++ (pat ++ b)) = pat ++ b := by
        have := List.drop_left a (pat ++ b)
        simpa using this
      rw [h1]
      have := List.drop_left pat b
      simpa using this
    rw [List.append_assoc a pat b, ht, hd]

/-! ## Lemma about the scroll-elicitation loop -/

theorem scrollLoop_finds (heights : Nat → Nat) (n0 : Nat)
    (hconv : heights n0 ≤ SCROLL_DISTANCE * (n0 + 1))
    (hmin : ∀ m < n0, SCROLL_DISTANCE * (m + 1) < heights m) :
    ∀ fuel tick, tick ≤ n0 → n0 < tick + fuel →
      scrollLoop heights fuel tick (SCROLL_DISTANCE * tick) = some (n0 + 1) := by
  intro fuel
  induction fuel with
  | zero => intro tick ht1 ht2; omega
  | succ k ih =>
    intro tick ht1 ht2
    simp only [scrollLoop]
    by_cases hc : heights tick ≤ SCROLL_DISTANCE * tick + SCROLL_DISTANCE
    · have htick : tick = n0 := by
        by_contra hne
        have hlt : tick < n0 := by omega
        have := hmin tick hlt
        have hms : SCROLL_DISTANCE * (tick + 1) = SCROLL_DISTANCE * tick + SCROLL_DISTANCE :=
          Nat.mul_succ _ _
        omega
      rw [if_pos hc, htick]
    · rw [if_neg hc]
      have hne : tick ≠ n0 := by
        intro he
        subst he
        have hms : SCROLL_DISTANCE * (tick + 1) = SCROLL_DISTANCE * tick + SCROLL_DISTANCE :=
          Nat.mul_succ _ _
        omega
      have hms : SCROLL_DISTANCE * tick + SCROLL_DISTANCE = SCROLL_DISTANCE * (tick + 1) :=
        (Nat.mul_succ _ _).symm
      rw [hms]
      exact ih (tick + 1) (by omega) (by omega)

/-! ## Concrete instances used in counterexamples and witnesses -/

/-- An over-budget buffer (5 MiB + 1 byte). -/
def bigBuf : Buffer := List.replicate (MAX_FILE_SIZE + 1) 0

theorem bigBuf_length : MAX_FILE_SIZE < bigBuf.length := by
  simp only [bigBuf, List.length_replicate]
  omega

/-- A codec oracle whose calls all succeed with an empty output. -/
def sharpTrivial : SharpOps where
  metaW _ := 0
  metaH _ := 0
  resizePng _ _ _ := .ok []
  jpegQ _ _ := .ok []
  resizeJpeg _ _ _ _ := .ok []

/-! ## Claim theorems -/

/-- **C5** (confirmed): for every input buffer whose length is
`≤ MAX_FILE_SIZE`, `compressImageIfNeeded` acts as the identity: it
returns the exact same buffer (byte-identical, the very same list of
bytes) and the filename unchanged, with an empty attempt trace — no
re-encoding is performed, and the result does not depend on the codec
oracle `S` at all. -/
theorem pass_through_identity (S : SharpOps) (ps : Nat → ℚ) (buffer : Buffer)
    (fn : List Char) (h : buffer.length ≤ MAX_FILE_SIZE) :
    compressImageIfNeeded S ps buffer fn
      = .ok ({ buffer := buffer, filename := fn }, []) := by
  simp only [compressImageIfNeeded]
  rw [if_pos h]

/-- Witness for C5 at a concrete 3-byte buffer and filename. -/
theorem pass_through_identity_witness :
    ([10, 20, 30] : Buffer).length ≤ MAX_FILE_SIZE ∧
    compressImageIfNeeded sharpTrivial (fun _ => 0) [10, 20, 30] "shot.png".data
      = .ok ({ buffer := [10, 20, 30], filename := "shot.png".data }, []) :=
  ⟨by decide,
   pass_through_identity sharpTrivial (fun _ => 0) [10, 20, 30] "shot.png".data (by decide)⟩

/-- **C8** (confirmed): the scroll-elicitation loop re-reads the
document's scrollable height at every tick (`heights n` is the value read
at tick `n`), and for every page whose scrollable height is eventually
bounded by `B` (from tick `N` on), the loop terminates: it runs exactly
`n + 1` iterations where `n` is the first tick at which the cumulative
scrolled distance `SCROLL_DISTANCE * (n + 1)` reaches the height read at
that same tick, and at every earlier tick the cumulative distance was
still below the height read there. -/
theorem scroll_loop_spec (heights : Nat → Nat) (B N : Nat)
    (hb : ∀ n, N ≤ n → heights n ≤ B) :
    ∃ n, scrollLoop heights (N + B + 1) 0 0 = some (n + 1) ∧
      heights n ≤ SCROLL_DISTANCE * (n + 1) ∧
      ∀ m < n, SCROLL_DISTANCE * (m + 1) < heights m := by
  have hex : ∃ k, heights k ≤ SCROLL_DISTANCE * (k + 1) := by
    refine ⟨N + B, ?_⟩
    have h1 := hb (N + B) (by omega)
    simp only [SCROLL_DISTANCE]
    omega
  classical
  have h1 := Nat.find_spec hex
  have h2 : ∀ m < Nat.find hex, SCROLL_DISTANCE * (m + 1) < heights m := by
    intro m hm
    have := Nat.find_min hex hm
    simp only [SCROLL_DISTANCE] at this ⊢
    omega
  have hle : Nat.find hex ≤ N + B := Nat.find_min' hex (by
    have h3 := hb (N + B) (by omega)
    simp only [SCROLL_DISTANCE]
    omega)
  refine ⟨Nat.find hex, ?_, h1, h2⟩
  have := scrollLoop_finds heights (Nat.find hex) h1 h2 (N + B + 1) 0 (by omega) (by omega)
  simpa using this

/-- A concrete page whose scrollable height is the constant 500. -/
def heightsConst : Nat → Nat := fun _ => 500

/-- Witness for C8: on the constant-height-500 page the loop stops after
5 iterations (the concrete run is also evaluated directly). -/
theorem scroll_loop_spec_witness :
    (∀ n, 0 ≤ n → heightsConst n ≤ 500) ∧
    (∃ n, scrollLoop heightsConst (0 + 500 + 1) 0 0 = some (n + 1) ∧
      heightsConst n ≤ SCROLL_DISTANCE * (n + 1) ∧
      ∀ m < n, SCROLL_DISTANCE * (m + 1) < heightsConst m) ∧
    scrollLoop heightsConst 10 0 0 = some 5 :=
  ⟨fun _ _ => le_refl 500,
   scroll_loop_spec heightsConst 500 0 (fun _ _ => le_refl 500),
   by decide⟩

/-- The DOM measurements refuting C9: every source is 0 except the body's
client measurements, which the code never reads. -/
def domBodyClient : DomMeasurements where
  bodyScrollWidth := 0
  bodyOffsetWidth := 0
  bodyClientWidth := 7
  htmlClientWidth := 0
  htmlScrollWidth := 0
  htmlOffsetWidth := 0
  bodyScrollHeight := 0
  bodyOffsetHeight := 0
  bodyClientHeight := 7
  htmlClientHeight := 0
  htmlScrollHeight := 0
  htmlOffsetHeight := 0

/-- Counterexample to **C9** as stated: the resolved width/height are NOT
the maximum across the client, scroll and offset measurements of both
elements, because `body.clientWidth`/`body.clientHeight` are never read:
on `domBodyClient` (body client measurements 7, everything else 0) the
code resolves 0 while the claimed six-source maximum is 7. -/
theorem geometry_max_counterexample :
    pageWidth domBodyClient = 0 ∧ claimWidth domBodyClient = 7 ∧
    pageHeight domBodyClient = 0 ∧ claimHeight domBodyClient = 7 ∧
    pageWidth domBodyClient ≠ claimWidth domBodyClient ∧
    pageHeight domBodyClient ≠ claimHeight domBodyClient := by
  refine ⟨rfl, rfl, rfl, rfl, ?_, ?_⟩ <;> decide

/-- **C9** (corrected): the resolved width is the maximum of the FIVE
sources `body.scrollWidth`, `body.offsetWidth`, `html.clientWidth`,
`html.scrollWidth`, `html.offsetWidth` (the body's client measurements
are not consulted), and likewise for the height; in particular both are
≥ the viewport's client width/height (`html.clientWidth`,
`html.clientHeight`). -/
theorem geometry_max_amended (d : DomMeasurements) :
    d.bodyScrollWidth ≤ pageWidth d ∧ d.bodyOffsetWidth ≤ pageWidth d ∧
    d.htmlClientWidth ≤ pageWidth d ∧ d.htmlScrollWidth ≤ pageWidth d ∧
    d.htmlOffsetWidth ≤ pageWidth d ∧
    (pageWidth d = d.bodyScrollWidth ∨ pageWidth d = d.bodyOffsetWidth ∨
     pageWidth d = d.htmlClientWidth ∨ pageWidth d = d.htmlScrollWidth ∨
     pageWidth d = d.htmlOffsetWidth) ∧
    d.bodyScrollHeight ≤ pageHeight d ∧ d.bodyOffsetHeight ≤ pageHeight d ∧
    d.htmlClientHeight ≤ pageHeight d ∧ d.htmlScrollHeight ≤ pageHeight d ∧
    d.htmlOffsetHeight ≤ pageHeight d ∧
    (pageHeight d = d.bodyScrollHeight ∨ pageHeight d = d.bodyOffsetHeight ∨
     pageHeight d = d.htmlClientHeight ∨ pageHeight d = d.htmlScrollHeight ∨
     pageHeight d = d.htmlOffsetHeight) := by
  unfold pageWidth pageHeight
  omega

theorem compress_over_quality_some (S : SharpOps) (ps : Nat → ℚ) (buffer : Buffer)
    (fn : List Char) (wb : Buffer) (tr0 : List Attempt) (r : CompressResult)
    (b : Buffer) (tr : List Attempt)
    (h1 : MAX_FILE_SIZE < buffer.length)
    (hpre : preStepResult S ps buffer = .ok (wb, tr0))
    (hq : qualityLoop S wb (jsReplaceFirst fn pngExt jpgExt) 8 90 wb tr0 = (some r, b, tr)) :
    compressImageIfNeeded S ps buffer fn = .ok (r, tr) := by
  rw [compress_over S ps buffer fn wb tr0 h1 hpre, hq]

theorem compress_over_scale (S : SharpOps) (ps : Nat → ℚ) (buffer : Buffer)
    (fn : List Char) (wb : Buffer) (tr0 : List Attempt) (c1 : Buffer) (tr1 : List Attempt)
    (h1 : MAX_FILE_SIZE < buffer.length)
    (hpre : preStepResult S ps buffer = .ok (wb, tr0))
    (hq : qualityLoop S wb (jsReplaceFirst fn pngExt jpgExt) 8 90 wb tr0 = (none, c1, tr1)) :
    compressImageIfNeeded S ps buffer fn =
      match scaleLoop S wb (jsReplaceFirst fn pngExt jpgExt) (S.metaW wb) (S.metaH wb)
          jsScaleSeq c1 tr1 with
      | (some r, _, tr) => .ok (r, tr)
      | (none, c2, tr2) =>
        .ok ({ buffer := c2, filename := jsReplaceFirst fn pngExt jpgExt }, tr2) := by
  rw [compress_over S ps buffer fn wb tr0 h1 hpre, hq]

theorem compress_over_scale_some (S : SharpOps) (ps : Nat → ℚ) (buffer : Buffer)
    (fn : List Char) (wb : Buffer) (tr0 : List Attempt) (c1 : Buffer) (tr1 : List Attempt)
    (r : CompressResult) (b : Buffer) (tr : List Attempt)
    (h1 : MAX_FILE_SIZE < buffer.length)
    (hpre : preStepResult S ps buffer = .ok (wb, tr0))
    (hq : qualityLoop S wb (jsReplaceFirst fn pngExt jpgExt) 8 90 wb tr0 = (none, c1, tr1))
    (hs : scaleLoop S wb (jsReplaceFirst fn pngExt jpgExt) (S.metaW wb) (S.metaH wb)
        jsScaleSeq c1 tr1 = (some r, b, tr)) :
    compressImageIfNeeded S ps buffer fn = .ok (r, tr) := by
  rw [compress_over_scale S ps buffer fn wb tr0 c1 tr1 h1 hpre hq, hs]

theorem compress_over_best (S : SharpOps) (ps : Nat → ℚ) (buffer : Buffer)
    (fn : List Char) (wb : Buffer) (tr0 : List Attempt) (c1 : Buffer) (tr1 : List Attempt)
    (c2 : Buffer) (tr2 : List Attempt)
    (h1 : MAX_FILE_SIZE < buffer.length)
    (hpre : preStepResult S ps buffer = .ok (wb, tr0))
    (hq : qualityLoop S wb (jsReplaceFirst fn pngExt jpgExt) 8 90 wb tr0 = (none, c1, tr1))
    (hs : scaleLoop S wb (jsReplaceFirst fn pngExt jpgExt) (S.metaW wb) (S.metaH wb)
        jsScaleSeq c1 tr1 = (none, c2, tr2)) :
    compressImageIfNeeded S ps buffer fn
      = .ok ({ buffer := c2, filename := jsReplaceFirst fn pngExt jpgExt }, tr2) := by
  rw [compress_over_scale S ps buffer fn wb tr0 c1 tr1 h1 hpre hq, hs]

/-- For every over-budget input whose pre-resize step succeeded, the
function returns an `ok` result whose filename is
`filename.replace('.png', '.jpg')`. -/
theorem compress_over_filename (S : SharpOps) (ps : Nat → ℚ) (buffer : Buffer)
    (fn : List Char) (wb : Buffer) (tr0 : List Attempt)
    (h1 : MAX_FILE_SIZE < buffer.length)
    (hpre : preStepResult S ps buffer = .ok (wb, tr0)) :
    ∃ r tr, compressImageIfNeeded S ps buffer fn = .ok (r, tr) ∧
      r.filename = jsReplaceFirst fn pngExt jpgExt := by
  rcases hq : qualityLoop S wb (jsReplaceFirst fn pngExt jpgExt) 8 90 wb tr0 with ⟨oq, bq, trq⟩
  cases oq with
  | some r =>
    obtain ⟨_, hfn, _⟩ := qualityLoop_some S wb _ 8 90 wb tr0 r bq trq hq
    exact ⟨r, trq, compress_over_quality_some S ps buffer fn wb tr0 r bq trq h1 hpre hq, hfn⟩
  | none =>
    rcases hs : scaleLoop S wb (jsReplaceFirst fn pngExt jpgExt) (S.metaW wb) (S.metaH wb)
        jsScaleSeq bq trq with ⟨os, bs, trs⟩
    cases os with
    | some r =>
      obtain ⟨_, hfn, _⟩ := scaleLoop_some S wb _ _ _ jsScaleSeq bq trq r bs trs hs
      exact ⟨r, trs,
        compress_over_scale_some S ps buffer fn wb tr0 bq trq r bs trs h1 hpre hq hs, hfn⟩
    | none =>
      exact ⟨_, trs, compress_over_best S ps buffer fn wb tr0 bq trq bs trs h1 hpre hq hs, rfl⟩

/-- **C10** (confirmed): for every over-budget input (on every run in
which the function returns rather than propagating an uncaught pre-resize
error), the returned filename is exactly the input filename with only the
FIRST occurrence of the substring `.png` replaced by `.jpg`
(JavaScript `String.prototype.replace` with a string pattern,
case-sensitive); consequently, for any input filename not containing
`.png` (e.g. `.PNG` or extension-less) the filename is returned
completely unchanged — even though the returned buffer may be
JPEG-encoded. -/
theorem filename_replacement (S : SharpOps) (ps : Nat → ℚ) (buffer : Buffer)
    (fn : List Char) (wb : Buffer) (tr0 : List Attempt)
    (h1 : MAX_FILE_SIZE < buffer.length)
    (hpre : preStepResult S ps buffer = .ok (wb, tr0)) :
    ∃ r tr, compressImageIfNeeded S ps buffer fn = .ok (r, tr) ∧
      r.filename = jsReplaceFirst fn pngExt jpgExt ∧
      ((∀ a b, fn ≠ a ++ pngExt ++ b) → r.filename = fn) ∧
      (∀ a b, fn = a ++ pngExt ++ b →
        (∀ j < a.length, ¬ pngExt.isPrefixOf (fn.drop j)) →
        r.filename = a ++ jpgExt ++ b) := by
  obtain ⟨r, tr, hres, hfn⟩ := compress_over_filename S ps buffer fn wb tr0 h1 hpre
  refine ⟨r, tr, hres, hfn, ?_, ?_⟩
  · intro hno
    rw [hfn, jsReplaceFirst_no_occurrence fn pngExt jpgExt hno]
  · intro a b hfa hfirst
    rw [hfn, jsReplaceFirst_first_occurrence fn pngExt jpgExt a b hfa hfirst]

theorem upToFirst_mem (p : α → Bool) : ∀ l : List α, ∀ a ∈ upToFirst p l, a ∈ l := by
  intro l
  induction l with
  | nil => intro a ha; simpa [upToFirst] using ha
  | cons x xs ih =>
    intro a ha
    by_cases h : p x
    · simp only [upToFirst, if_pos h, List.mem_singleton] at ha
      simp [ha]
    · simp only [upToFirst, if_neg h, List.mem_cons] at ha
      rcases ha with rfl | ha
      · simp
      · simp [ih a ha]

theorem qualityLoop_all_fail (S : SharpOps) (wb : Buffer) (fn : List Char)
    (jf : Nat → Buffer) (hjf : ∀ q, S.jpegQ wb q = .ok (jf q)) :
    ∀ fuel q c tr, (∀ q' ∈ qualSeq fuel q, ¬ ((jf q').length ≤ MAX_FILE_SIZE)) →
      (qualityLoop S wb fn fuel q c tr).1 = none ∧
      (qualityLoop S wb fn fuel q c tr).2.2
        = tr ++ (qualSeq fuel q).map
            (fun q' => Attempt.jpeg (S.metaW wb) (S.metaH wb) q' (some (jf q').length)) := by
  intro fuel
  induction fuel with
  | zero => intro q c tr hfail; simp [qualityLoop, qualSeq]
  | succ n ih =>
    intro q c tr hfail
    simp only [qualityLoop, qualSeq, hjf q] at *
    by_cases hq : 20 < q
    · rw [if_pos hq]
      rw [if_pos hq] at hfail
      have h90 : ¬ ((jf q).length ≤ MAX_FILE_SIZE) := hfail q (by simp)
      rw [if_neg h90]
      have := ih (q - 10)
        (jf q)
        (tr ++ [Attempt.jpeg (S.metaW wb) (S.metaH wb) q (some (jf q).length)])
        (fun q' hq' => hfail q' (by simp [hq']))
      refine ⟨this.1, ?_⟩
      rw [this.2]
      simp [hq]
    · rw [if_neg hq]
      rw [if_neg hq] at hfail
      simp [hq]

theorem scaleLoop_trace_grow (S : SharpOps) (wb : Buffer) (fn : List Char) (cw ch : Nat) :
    ∀ l c tr, ∃ Δ, (scaleLoop S wb fn cw ch l c tr).2.2 = tr ++ Δ := by
  intro l
  induction l with
  | nil => intro c tr; exact ⟨[], by simp [scaleLoop]⟩
  | cons s rest ih =>
    intro c tr
    simp only [scaleLoop]
    cases hj : S.resizeJpeg wb (ratFloorNat ((cw : ℚ) * s)) (ratFloorNat ((ch : ℚ) * s)) 80 with
    | ok c' =>
      by_cases hl : c'.length ≤ MAX_FILE_SIZE
      · exact ⟨[Attempt.scaleJpeg (ratFloorNat ((cw : ℚ) * s)) (ratFloorNat ((ch : ℚ) * s)) 80
          (some c'.length)], by simp [hl]⟩
      · obtain ⟨Δ, hΔ⟩ := ih c'
          (tr ++ [Attempt.scaleJpeg (ratFloorNat ((cw : ℚ) * s)) (ratFloorNat ((ch : ℚ) * s)) 80
            (some c'.length)])
        refine ⟨Attempt.scaleJpeg (ratFloorNat ((cw : ℚ) * s)) (ratFloorNat ((ch : ℚ) * s)) 80
          (some c'.length) :: Δ, ?_⟩
        simp only [hl, if_neg, if_false]
        rw [hΔ]
        simp
    | error e =>
      exact ⟨[Attempt.scaleJpeg (ratFloorNat ((cw : ℚ) * s)) (ratFloorNat ((ch : ℚ) * s)) 80 none],
        by simp⟩

/-- Master helper: totality of `jpegQ` on the working buffer determines
the stage-3 attempted qualities of every run. -/
theorem compress_jpegQualities (S : SharpOps) (ps : Nat → ℚ) (buffer : Buffer)
    (fn : List Char) (wb : Buffer) (tr0 : List Attempt) (jf : Nat → Buffer)
    (h1 : MAX_FILE_SIZE < buffer.length)
    (hpre : preStepResult S ps buffer = .ok (wb, tr0))
    (hjf : ∀ q, S.jpegQ wb q = .ok (jf q)) :
    ∃ r tr, compressImageIfNeeded S ps buffer fn = .ok (r, tr) ∧
      jpegQualities tr
        = upToFirst (fun q => decide ((jf q).length ≤ MAX_FILE_SIZE))
            [90, 80, 70, 60, 50, 40, 30] := by
  obtain ⟨hq0, _⟩ := preStep_ok_shape S ps buffer wb tr0 hpre
  have htr3 := qualityLoop_total_trace S wb (jsReplaceFirst fn pngExt jpgExt) jf hjf 8 90 wb tr0
  have hseq : qualSeq 8 90 = [90, 80, 70, 60, 50, 40, 30] := rfl
  rw [hseq, hq0, List.nil_append] at htr3
  rcases hq : qualityLoop S wb (jsReplaceFirst fn pngExt jpgExt) 8 90 wb tr0 with ⟨oq, bq, trq⟩
  rw [hq] at htr3
  cases oq with
  | some r =>
    exact ⟨r, trq, compress_over_quality_some S ps buffer fn wb tr0 r bq trq h1 hpre hq, htr3⟩
  | none =>
    have hjq := scaleLoop_jpegQualities S wb (jsReplaceFirst fn pngExt jpgExt)
      (S.metaW wb) (S.metaH wb) jsScaleSeq bq trq
    rcases hs : scaleLoop S wb (jsReplaceFirst fn pngExt jpgExt) (S.metaW wb) (S.metaH wb)
        jsScaleSeq bq trq with ⟨os, bs, trs⟩
    rw [hs] at hjq
    cases os with
    | some r =>
      refine ⟨r, trs,
        compress_over_scale_some S ps buffer fn wb tr0 bq trq r bs trs h1 hpre hq hs, ?_⟩
      rw [show jpegQualities trs = jpegQualities trq from hjq]
      exact htr3
    | none =>
      refine ⟨_, trs, compress_over_best S ps buffer fn wb tr0 bq trq bs trs h1 hpre hq hs, ?_⟩
      rw [show jpegQualities trs = jpegQualities trq from hjq]
      exact htr3

/-- Master helper: when every stage-3 and stage-4 attempt encodes over
budget (and no codec error occurs), the function takes the best-effort
exit of line 105: it returns the output of the LAST attempt — the
stage-4 encode at the last scale value 0.30000000000000016 — paired with
the replaced filename, and the trace contains all seven stage-3 jpeg
attempts. -/
theorem compress_all_fail (S : SharpOps) (ps : Nat → ℚ) (buffer : Buffer)
    (fn : List Char) (wb : Buffer) (tr0 : List Attempt)
    (jf : Nat → Buffer) (rf : Nat → Nat → Nat → Buffer)
    (h1 : MAX_FILE_SIZE < buffer.length)
    (hpre : preStepResult S ps buffer = .ok (wb, tr0))
    (hjf : ∀ q, S.jpegQ wb q = .ok (jf q))
    (hrf : ∀ w h q, S.resizeJpeg wb w h q = .ok (rf w h q))
    (hqfail : ∀ q ∈ [90, 80, 70, 60, 50, 40, 30], ¬ ((jf q).length ≤ MAX_FILE_SIZE))
    (hsfail : ∀ s ∈ jsScaleSeq,
      MAX_FILE_SIZE < (rf (ratFloorNat ((S.metaW wb : ℚ) * s))
        (ratFloorNat ((S.metaH wb : ℚ) * s)) 80).length) :
    ∃ tr, compressImageIfNeeded S ps buffer fn
      = .ok ({ buffer :=
                 rf (ratFloorNat ((S.metaW wb : ℚ) * ((2702159776422299 : ℚ) / 9007199254740992)))
                    (ratFloorNat ((S.metaH wb : ℚ) * ((2702159776422299 : ℚ) / 9007199254740992)))
                    80,
               filename := jsReplaceFirst fn pngExt jpgExt }, tr) ∧
      ∀ q ∈ [90, 80, 70, 60, 50, 40, 30],
        Attempt.jpeg (S.metaW wb) (S.metaH wb) q (some (jf q).length) ∈ tr := by
  have hseq : qualSeq 8 90 = [90, 80, 70, 60, 50, 40, 30] := rfl
  have hq3 := qualityLoop_all_fail S wb (jsReplaceFirst fn pngExt jpgExt) jf hjf 8 90 wb tr0
    (by rw [hseq]; exact hqfail)
  rcases hq : qualityLoop S wb (jsReplaceFirst fn pngExt jpgExt) 8 90 wb tr0 with ⟨oq, bq, trq⟩
  rw [hq] at hq3
  obtain ⟨hoq, htrq⟩ := hq3
  simp only at hoq htrq
  subst hoq
  have hall := scaleLoop_all_fail S wb (jsReplaceFirst fn pngExt jpgExt)
    (S.metaW wb) (S.metaH wb) rf hrf jsScaleSeq bq trq (by simp [jsScaleSeq]) hsfail
  rcases hs : scaleLoop S wb (jsReplaceFirst fn pngExt jpgExt) (S.metaW wb) (S.metaH wb)
      jsScaleSeq bq trq with ⟨os, bs, trs⟩
  rw [hs] at hall
  obtain ⟨hos, hbs⟩ := hall
  simp only at hos hbs
  subst hos
  obtain ⟨Δ, hΔ⟩ := scaleLoop_trace_grow S wb (jsReplaceFirst fn pngExt jpgExt)
    (S.metaW wb) (S.metaH wb) jsScaleSeq bq trq
  rw [hs] at hΔ
  simp only at hΔ
  refine ⟨trs, ?_, ?_⟩
  · rw [compress_over_best S ps buffer fn wb tr0 bq trq bs trs h1 hpre hq hs]
    have hlast : List.getLast jsScaleSeq (by simp [jsScaleSeq])
        = (2702159776422299 : ℚ) / 9007199254740992 := rfl
    rw [hbs, hlast]
  · intro q hqmem
    rw [hΔ, htrq]
    simp only [List.append_assoc, List.mem_append, List.mem_map]
    right; left
    exact ⟨q, by rw [hseq]; exact hqmem, rfl⟩

theorem qualityLoop_trace_grow (S : SharpOps) (wb : Buffer) (fn : List Char) :
    ∀ fuel q c tr, ∃ Δ, (qualityLoop S wb fn fuel q c tr).2.2 = tr ++ Δ := by
  intro fuel
  induction fuel with
  | zero => intro q c tr; exact ⟨[], by simp [qualityLoop]⟩
  | succ n ih =>
    intro q c tr
    simp only [qualityLoop]
    by_cases hq : 20 < q
    · rw [if_pos hq]
      cases hj : S.jpegQ wb q with
      | ok c' =>
        by_cases hl : c'.length ≤ MAX_FILE_SIZE
        · exact ⟨[Attempt.jpeg (S.metaW wb) (S.metaH wb) q (some c'.length)], by simp [hl]⟩
        · obtain ⟨Δ, hΔ⟩ := ih (q - 10) c'
            (tr ++ [Attempt.jpeg (S.metaW wb) (S.metaH wb) q (some c'.length)])
          refine ⟨Attempt.jpeg (S.metaW wb) (S.metaH wb) q (some c'.length) :: Δ, ?_⟩
          simp only [hl, if_neg, if_false]
          rw [hΔ]
          simp
      | error e =>
        exact ⟨[Attempt.jpeg (S.metaW wb) (S.metaH wb) q none], by simp⟩
    · rw [if_neg hq]
      exact ⟨[], by simp⟩

/-- The stage-3 loop when the very first attempt (quality 90) raises:
the error is caught, the loop breaks immediately, `compressed` keeps its
initial value. -/
theorem qualityLoop_90_first_error (S : SharpOps) (wb : Buffer) (fn : List Char)
    (c : Buffer) (tr : List Attempt) (e : String)
    (herr : S.jpegQ wb 90 = .error e) :
    qualityLoop S wb fn 8 90 c tr
      = (none, c, tr ++ [Attempt.jpeg (S.metaW wb) (S.metaH wb) 90 none]) := by
  simp only [qualityLoop, herr]
  norm_num

/-- The stage-4 loop when its very first attempt (scale 0.9) raises: the
error is caught, the loop breaks, `compressed` keeps its value. -/
theorem scaleLoop_js_first_error (S : SharpOps) (wb : Buffer) (fn : List Char)
    (cw ch : Nat) (c : Buffer) (tr : List Attempt) (e : String)
    (herr : ∀ w h q, S.resizeJpeg wb w h q = .error e) :
    scaleLoop S wb fn cw ch jsScaleSeq c tr
      = (none, c, tr ++ [Attempt.scaleJpeg
          (ratFloorNat ((cw : ℚ) * ((8106479329266893 : ℚ) / 9007199254740992)))
          (ratFloorNat ((ch : ℚ) * ((8106479329266893 : ℚ) / 9007199254740992))) 80 none]) := by
  simp only [jsScaleSeq, scaleLoop, herr]

/-- Over-budget buffer used as an input and as an oversized codec
output. -/
theorem bigBuf_not_le : ¬ (bigBuf.length ≤ MAX_FILE_SIZE) := by
  simp only [bigBuf, List.length_replicate]
  omega

/-- Codec oracle on a 10×10 image for which ONLY quality 20 — which the
code never tries — would meet the budget. -/
def sharpOnly20 : SharpOps where
  metaW _ := 10
  metaH _ := 10
  resizePng _ _ _ := .ok [0]
  jpegQ _ q := if q = 20 then .ok [0] else .ok bigBuf
  resizeJpeg _ _ _ _ := .ok bigBuf

/-- **C1** (corrected): the quality range of the premise is [30, 90], not
[20, 90].  For every over-budget input whose working buffer `wb` came out
of the pre-resize step, if the codec succeeds on every attempt and SOME
attempted quality in {90,...,30} or SOME attempted stage-4 scale (the
seven double values of the loop variable, nominally 0.9 down to 0.3)
yields an encoded size within the budget, then `compressImageIfNeeded`
returns a buffer whose length is ≤ MAX_FILE_SIZE. -/
theorem budget_satisfaction_amended (S : SharpOps) (ps : Nat → ℚ) (buffer : Buffer)
    (fn : List Char) (wb : Buffer) (tr0 : List Attempt)
    (jf : Nat → Buffer) (rf : Nat → Nat → Nat → Buffer)
    (h1 : MAX_FILE_SIZE < buffer.length)
    (hpre : preStepResult S ps buffer = .ok (wb, tr0))
    (hjf : ∀ q, S.jpegQ wb q = .ok (jf q))
    (hrf : ∀ w h q, S.resizeJpeg wb w h q = .ok (rf w h q))
    (hwin : (∃ q ∈ [90, 80, 70, 60, 50, 40, 30], (jf q).length ≤ MAX_FILE_SIZE)
          ∨ (∃ s ∈ jsScaleSeq,
              (rf (ratFloorNat ((S.metaW wb : ℚ) * s)) (ratFloorNat ((S.metaH wb : ℚ) * s))
                 80).length ≤ MAX_FILE_SIZE)) :
    ∃ r tr, compressImageIfNeeded S ps buffer fn = .ok (r, tr) ∧
      r.buffer.length ≤ MAX_FILE_SIZE := by
  rcases hq : qualityLoop S wb (jsReplaceFirst fn pngExt jpgExt) 8 90 wb tr0 with ⟨oq, bq, trq⟩
  cases oq with
  | some r =>
    obtain ⟨hlen, _, _⟩ := qualityLoop_some S wb _ 8 90 wb tr0 r bq trq hq
    exact ⟨r, trq, compress_over_quality_some S ps buffer fn wb tr0 r bq trq h1 hpre hq, hlen⟩
  | none =>
    have hiff := qualityLoop_isSome S wb (jsReplaceFirst fn pngExt jpgExt) jf hjf 8 90 wb tr0
    rw [hq] at hiff
    simp only [Option.isSome_none, Bool.false_eq_true, false_iff] at hiff
    rw [show qualSeq 8 90 = [90, 80, 70, 60, 50, 40, 30] from rfl] at hiff
    have hwin2 := hwin.resolve_left hiff
    have hiff2 := scaleLoop_isSome S wb (jsReplaceFirst fn pngExt jpgExt)
      (S.metaW wb) (S.metaH wb) rf hrf jsScaleSeq bq trq
    rcases hs : scaleLoop S wb (jsReplaceFirst fn pngExt jpgExt) (S.metaW wb) (S.metaH wb)
        jsScaleSeq bq trq with ⟨os, bs, trs⟩
    rw [hs] at hiff2
    cases os with
    | none =>
      simp only [Option.isSome_none, Bool.false_eq_true, false_iff] at hiff2
      exact absurd hwin2 hiff2
    | some r =>
      obtain ⟨hlen, _, _⟩ := scaleLoop_some S wb _ _ _ jsScaleSeq bq trq r bs trs hs
      exact ⟨r, trs,
        compress_over_scale_some S ps buffer fn wb tr0 bq trq r bs trs h1 hpre hq hs, hlen⟩

/-- Counterexample to **C1** as stated: with the `sharpOnly20` codec,
quality 20 — inside the claim's range [20, 90] step 10 — would encode to
1 byte, comfortably within budget, so the claim's premise holds; yet the
function returns an over-budget buffer, because quality 20 is never
attempted (`while (quality > 20)` stops after 30). -/
theorem budget_satisfaction_counterexample :
    (sharpOnly20.jpegQ bigBuf 20 = .ok [0] ∧ ([0] : Buffer).length ≤ MAX_FILE_SIZE) ∧
    ∃ r tr, compressImageIfNeeded sharpOnly20 (fun _ => 0) bigBuf "shot.png".data
        = .ok (r, tr) ∧ MAX_FILE_SIZE < r.buffer.length := by
  refine ⟨⟨rfl, by decide⟩, ?_⟩
  obtain ⟨tr, hres, _⟩ := compress_all_fail sharpOnly20 (fun _ => 0) bigBuf "shot.png".data
    bigBuf [] (fun q => if q = 20 then [0] else bigBuf) (fun _ _ _ => bigBuf)
    bigBuf_length (preStep_no_resize _ _ _ (by decide))
    (fun q => by by_cases h : q = 20 <;> simp [sharpOnly20, h])
    (fun _ _ _ => rfl)
    (fun q hq => by
      have hne : q ≠ 20 := by
        simp only [List.mem_cons, List.not_mem_nil, or_false] at hq
        omega
      simp only [if_neg hne]
      exact bigBuf_not_le)
    (fun s hs => Nat.lt_of_not_le bigBuf_not_le)
  exact ⟨_, tr, hres, Nat.lt_of_not_le bigBuf_not_le⟩

/-- Codec oracle that always succeeds with a 1-byte output. -/
def sharpSmallOk : SharpOps where
  metaW _ := 10
  metaH _ := 10
  resizePng _ _ _ := .ok [0]
  jpegQ _ _ := .ok [0]
  resizeJpeg _ _ _ _ := .ok [0]

/-- Witness for C1 (amended) at a concrete over-budget buffer whose very
first quality attempt succeeds. -/
theorem budget_satisfaction_witness :
    MAX_FILE_SIZE < bigBuf.length ∧
    (90 ∈ [90, 80, 70, 60, 50, 40, 30] ∧ ([0] : Buffer).length ≤ MAX_FILE_SIZE) ∧
    (∃ r tr, compressImageIfNeeded sharpSmallOk (fun _ => 0) bigBuf "shot.png".data
        = .ok (r, tr) ∧ r.buffer.length ≤ MAX_FILE_SIZE) :=
  ⟨bigBuf_length, ⟨by decide, by decide⟩,
   budget_satisfaction_amended sharpSmallOk (fun _ => 0) bigBuf "shot.png".data bigBuf []
     (fun _ => [0]) (fun _ _ _ => [0]) bigBuf_length (preStep_no_resize _ _ _ (by decide))
     (fun _ => rfl) (fun _ _ _ => rfl)
     (Or.inl ⟨90, by decide, by decide⟩)⟩

/-- **C2** (corrected): the stage-3 lossy re-encode attempts qualities in
descending order 90, 80, 70, 60, 50, 40, 30, re-encoding at each step and
stopping at the first quality whose encoded size is ≤ MAX_FILE_SIZE — the
attempted qualities are exactly the prefix of [90, 80, 70, 60, 50, 40,
30] up to and including the first success (the whole list when none
succeeds).  The floor is 30, NOT the claimed 20: the loop guard
`while (quality > 20)` is exclusive, so 20 is never attempted. -/
theorem quality_attempts_amended (S : SharpOps) (ps : Nat → ℚ) (buffer : Buffer)
    (fn : List Char) (wb : Buffer) (tr0 : List Attempt) (jf : Nat → Buffer)
    (h1 : MAX_FILE_SIZE < buffer.length)
    (hpre : preStepResult S ps buffer = .ok (wb, tr0))
    (hjf : ∀ q, S.jpegQ wb q = .ok (jf q)) :
    ∃ r tr, compressImageIfNeeded S ps buffer fn = .ok (r, tr) ∧
      jpegQualities tr
        = upToFirst (fun q => decide ((jf q).length ≤ MAX_FILE_SIZE))
            [90, 80, 70, 60, 50, 40, 30] ∧
      20 ∉ jpegQualities tr := by
  obtain ⟨r, tr, hres, htr⟩ :=
    compress_jpegQualities S ps buffer fn wb tr0 jf h1 hpre hjf
  refine ⟨r, tr, hres, htr, ?_⟩
  intro hmem
  rw [htr] at hmem
  have := upToFirst_mem _ _ _ hmem
  exact absurd this (by decide)

/-- Codec oracle every encode of which is over budget (5 MiB + 1). -/
def sharpAllBig : SharpOps where
  metaW _ := 10
  metaH _ := 10
  resizePng _ _ _ := .ok [0]
  jpegQ _ _ := .ok bigBuf
  resizeJpeg _ _ _ _ := .ok bigBuf

/-- Counterexample to **C2** as stated: with a codec for which every
encode is over budget, the recorded stage-3 attempts are
[90, 80, 70, 60, 50, 40, 30] — quality 20 is never attempted, refuting
the claimed sequence [90, 80, 70, 60, 50, 40, 30, 20]. -/
theorem quality_attempts_counterexample :
    ∃ r tr, compressImageIfNeeded sharpAllBig (fun _ => 0) bigBuf "shot.png".data
        = .ok (r, tr) ∧
      jpegQualities tr = [90, 80, 70, 60, 50, 40, 30] ∧
      jpegQualities tr ≠ [90, 80, 70, 60, 50, 40, 30, 20] := by
  obtain ⟨r, tr, hres, htr⟩ := compress_jpegQualities sharpAllBig (fun _ => 0) bigBuf
    "shot.png".data bigBuf [] (fun _ => bigBuf) bigBuf_length
    (preStep_no_resize _ _ _ (by decide)) (fun _ => rfl)
  have hb : decide (bigBuf.length ≤ MAX_FILE_SIZE) = false := decide_eq_false bigBuf_not_le
  have hup : upToFirst (fun _ : Nat => decide (bigBuf.length ≤ MAX_FILE_SIZE))
      [90, 80, 70, 60, 50, 40, 30] = [90, 80, 70, 60, 50, 40, 30] := by
    simp [upToFirst, hb]
  rw [hup] at htr
  refine ⟨r, tr, hres, htr, ?_⟩
  rw [htr]
  decide

/-- Witness for C2 (amended) at a codec whose first attempt (quality 90)
already meets the budget: the attempt list is exactly [90]. -/
theorem quality_attempts_witness :
    MAX_FILE_SIZE < bigBuf.length ∧
    (∃ r tr, compressImageIfNeeded sharpSmallOk (fun _ => 0) bigBuf "shot.png".data
        = .ok (r, tr) ∧
      jpegQualities tr
        = upToFirst (fun q => decide ((([0] : Buffer)).length ≤ MAX_FILE_SIZE))
            [90, 80, 70, 60, 50, 40, 30] ∧
      20 ∉ jpegQualities tr) ∧
    upToFirst (fun q : Nat => decide ((([0] : Buffer)).length ≤ MAX_FILE_SIZE))
        [90, 80, 70, 60, 50, 40, 30] = [90] :=
  ⟨bigBuf_length,
   quality_attempts_amended sharpSmallOk (fun _ => 0) bigBuf "shot.png".data bigBuf []
     (fun _ => [0]) bigBuf_length (preStep_no_resize _ _ _ (by decide)) (fun _ => rfl),
   by decide⟩

theorem jsScale_last_mem :
    (2702159776422299 : ℚ) / 9007199254740992 ∈ jsScaleSeq := by
  simp [jsScaleSeq]

/-- **C3** (corrected): when no quality/scale combination in stages 3-4
satisfies the budget (and no codec error occurs), `compressImageIfNeeded`
does NOT return the smallest buffer achieved over all attempts: it
returns the buffer of the LAST attempt — the stage-4 encode at the final
scale value 0.30000000000000016 — which is still over budget; and the
result is NOT tagged: it is the same bare `{ buffer, filename }` value a
successful run produces, so the caller cannot distinguish a best-effort
result except by re-measuring `buffer.length` itself. -/
theorem best_effort_amended (S : SharpOps) (ps : Nat → ℚ) (buffer : Buffer)
    (fn : List Char) (wb : Buffer) (tr0 : List Attempt)
    (jf : Nat → Buffer) (rf : Nat → Nat → Nat → Buffer)
    (h1 : MAX_FILE_SIZE < buffer.length)
    (hpre : preStepResult S ps buffer = .ok (wb, tr0))
    (hjf : ∀ q, S.jpegQ wb q = .ok (jf q))
    (hrf : ∀ w h q, S.resizeJpeg wb w h q = .ok (rf w h q))
    (hqfail : ∀ q ∈ [90, 80, 70, 60, 50, 40, 30], ¬ ((jf q).length ≤ MAX_FILE_SIZE))
    (hsfail : ∀ s ∈ jsScaleSeq,
      MAX_FILE_SIZE < (rf (ratFloorNat ((S.metaW wb : ℚ) * s))
        (ratFloorNat ((S.metaH wb : ℚ) * s)) 80).length) :
    ∃ r tr, compressImageIfNeeded S ps buffer fn = .ok (r, tr) ∧
      r.buffer = rf (ratFloorNat ((S.metaW wb : ℚ) * ((2702159776422299 : ℚ) / 9007199254740992)))
                   (ratFloorNat ((S.metaH wb : ℚ) * ((2702159776422299 : ℚ) / 9007199254740992)))
                   80 ∧
      MAX_FILE_SIZE < r.buffer.length ∧
      r.filename = jsReplaceFirst fn pngExt jpgExt := by
  obtain ⟨tr, hres, _⟩ :=
    compress_all_fail S ps buffer fn wb tr0 jf rf h1 hpre hjf hrf hqfail hsfail
  exact ⟨_, tr, hres, rfl, hsfail _ jsScale_last_mem, rfl⟩

/-- A buffer two bytes over budget. -/
def bigBuf2 : Buffer := List.replicate (MAX_FILE_SIZE + 2) 0

theorem bigBuf2_not_le : ¬ (bigBuf2.length ≤ MAX_FILE_SIZE) := by
  simp only [bigBuf2, List.length_replicate]
  omega

/-- Codec oracle whose quality-90 encode is 5 MiB + 1 bytes and whose
every other encode is 5 MiB + 2 bytes: all attempts are over budget, and
the LAST attempt is strictly larger than the first. -/
def sharpShrinkFirst : SharpOps where
  metaW _ := 10
  metaH _ := 10
  resizePng _ _ _ := .ok [0]
  jpegQ _ q := if q = 90 then .ok bigBuf else .ok bigBuf2
  resizeJpeg _ _ _ _ := .ok bigBuf2

/-- Counterexample to **C3** as stated: with `sharpShrinkFirst` every
attempt is over budget; the quality-90 attempt produced a buffer of
5242881 bytes (recorded in the trace), yet the returned buffer is the
LAST attempt's, of 5242882 bytes — not the smallest achieved.  (The
result value  also carries no field beyond `buffer` and `filename`, so
nothing tags it as best-effort.) -/
theorem best_effort_counterexample :
    ∃ r tr, compressImageIfNeeded sharpShrinkFirst (fun _ => 0) bigBuf "shot.png".data
        = .ok (r, tr) ∧
      Attempt.jpeg 10 10 90 (some (MAX_FILE_SIZE + 1)) ∈ tr ∧
      r.buffer.length = MAX_FILE_SIZE + 2 ∧
      MAX_FILE_SIZE + 1 < r.buffer.length := by
  obtain ⟨tr, hres, hmem⟩ := compress_all_fail sharpShrinkFirst (fun _ => 0) bigBuf
    "shot.png".data bigBuf [] (fun q => if q = 90 then bigBuf else bigBuf2)
    (fun _ _ _ => bigBuf2) bigBuf_length (preStep_no_resize _ _ _ (by decide))
    (fun q => by by_cases h : q = 90 <;> simp [sharpShrinkFirst, h])
    (fun _ _ _ => rfl)
    (fun q hq => by
      show ¬ (if q = 90 then bigBuf else bigBuf2).length ≤ MAX_FILE_SIZE
      by_cases h : q = 90
      · rw [if_pos h]
        exact bigBuf_not_le
      · rw [if_neg h]
        exact bigBuf2_not_le)
    (fun s hs => Nat.lt_of_not_le bigBuf2_not_le)
  have h90 := hmem 90 (by decide)
  have hlen : ((fun q => if q = 90 then bigBuf else bigBuf2) 90).length = MAX_FILE_SIZE + 1 := by
    simp [bigBuf]
  rw [hlen] at h90
  refine ⟨_, tr, hres, h90, ?_, ?_⟩
  · simp [bigBuf2]
  · have : bigBuf2.length = MAX_FILE_SIZE + 2 := by simp [bigBuf2]
    simp only [this]
    omega

/-- Witness for C3 (amended) at the concrete all-over-budget codec
`sharpAllBig`. -/
theorem best_effort_witness :
    MAX_FILE_SIZE < bigBuf.length ∧
    (∀ q ∈ [90, 80, 70, 60, 50, 40, 30], ¬ ((bigBuf : Buffer).length ≤ MAX_FILE_SIZE)) ∧
    (∃ r tr, compressImageIfNeeded sharpAllBig (fun _ => 0) bigBuf "shot.png".data
        = .ok (r, tr) ∧
      r.buffer = bigBuf ∧
      MAX_FILE_SIZE < r.buffer.length ∧
      r.filename = jsReplaceFirst "shot.png".data pngExt jpgExt) :=
  ⟨bigBuf_length, fun _ _ => bigBuf_not_le,
   best_effort_amended sharpAllBig (fun _ => 0) bigBuf "shot.png".data bigBuf []
     (fun _ => bigBuf) (fun _ _ _ => bigBuf) bigBuf_length
     (preStep_no_resize _ _ _ (by decide)) (fun _ => rfl) (fun _ _ _ => rfl)
     (fun _ _ => bigBuf_not_le) (fun _ _ => Nat.lt_of_not_le bigBuf_not_le)⟩

/-- **C4** (corrected): codec errors inside the quality loop or the
scale loop are caught per attempt, but they BREAK that loop (skipping its
remaining attempts) rather than continuing the search within it; when
every encode attempt fails, the function does return without raising —
with the original (working) buffer — but the filename has already had
its `.png` → `.jpg` replacement applied, NOT the original extension.
Moreover the pre-resize call of stage 2 is NOT inside any try/catch: a
codec error there propagates out of `compressImageIfNeeded` to the
caller. -/
theorem codec_error_amended (S : SharpOps) (ps : Nat → ℚ) (buffer : Buffer)
    (fn : List Char) (e1 e2 e3 : String)
    (h1 : MAX_FILE_SIZE < buffer.length) :
    ((S.metaW buffer * S.metaH buffer ≤ SHARP_PIXEL_LIMIT) →
     S.jpegQ buffer 90 = .error e1 →
     (∀ w h q, S.resizeJpeg buffer w h q = .error e2) →
     ∃ tr, compressImageIfNeeded S ps buffer fn
        = .ok ({ buffer := buffer, filename := jsReplaceFirst fn pngExt jpgExt }, tr)) ∧
    (SHARP_PIXEL_LIMIT < S.metaW buffer * S.metaH buffer →
     (∀ w h, S.resizePng buffer w h = .error e3) →
     compressImageIfNeeded S ps buffer fn = .error e3) := by
  constructor
  · intro hpix hjerr hrerr
    have hpre := preStep_no_resize S ps buffer hpix
    have hq := qualityLoop_90_first_error S buffer (jsReplaceFirst fn pngExt jpgExt)
      buffer [] e1 hjerr
    have hsl := scaleLoop_js_first_error S buffer (jsReplaceFirst fn pngExt jpgExt)
      (S.metaW buffer) (S.metaH buffer) buffer
      ([] ++ [Attempt.jpeg (S.metaW buffer) (S.metaH buffer) 90 none]) e2 hrerr
    exact ⟨_, compress_over_best S ps buffer fn buffer [] buffer _ buffer _ h1 hpre hq hsl⟩
  · intro hpix hrerr
    simp only [compressImageIfNeeded]
    rw [if_neg (Nat.not_le.mpr h1)]
    have hpre : preStepResult S ps buffer = .error e3 := by
      simp only [preStepResult]
      rw [if_pos hpix, hrerr]
    rw [hpre]

/-- Codec oracle every call of which raises. -/
def sharpErr : SharpOps where
  metaW _ := 10
  metaH _ := 10
  resizePng _ _ _ := .error "boom"
  jpegQ _ _ := .error "boom"
  resizeJpeg _ _ _ _ := .error "boom"

/-- Counterexample to **C4** as stated: when every codec call raises, the
function indeed returns the original uncompressed buffer without
propagating the exception — but with the filename ALREADY REPLACED to
`shot.jpg`, not "with its original extension" as claimed. -/
theorem codec_error_counterexample :
    ∃ tr, compressImageIfNeeded sharpErr (fun _ => 0) bigBuf "shot.png".data
        = .ok ({ buffer := bigBuf, filename := "shot.jpg".data }, tr) ∧
      "shot.jpg".data ≠ "shot.png".data := by
  have hpre := preStep_no_resize sharpErr (fun _ => 0) bigBuf (by decide)
  have hq := qualityLoop_90_first_error sharpErr bigBuf
    (jsReplaceFirst "shot.png".data pngExt jpgExt) bigBuf [] "boom" rfl
  have hsl := scaleLoop_js_first_error sharpErr bigBuf
    (jsReplaceFirst "shot.png".data pngExt jpgExt) (sharpErr.metaW bigBuf)
    (sharpErr.metaH bigBuf) bigBuf
    ([] ++ [Attempt.jpeg (sharpErr.metaW bigBuf) (sharpErr.metaH bigBuf) 90 none]) "boom"
    (fun _ _ _ => rfl)
  have hmain := compress_over_best sharpErr (fun _ => 0) bigBuf "shot.png".data bigBuf []
    bigBuf _ bigBuf _ bigBuf_length hpre hq hsl
  have hfn : jsReplaceFirst "shot.png".data pngExt jpgExt = "shot.jpg".data := by decide
  rw [hfn] at hmain
  exact ⟨_, hmain, by decide⟩

/-- Witness for C4 (amended) at the concrete everything-raises codec:
both conjuncts of the theorem are instantiated, the first applied to its
premises. -/
theorem codec_error_witness :
    MAX_FILE_SIZE < bigBuf.length ∧
    (∃ tr, compressImageIfNeeded sharpErr (fun _ => 0) bigBuf "shot.png".data
        = .ok ({ buffer := bigBuf,
                 filename := jsReplaceFirst "shot.png".data pngExt jpgExt }, tr)) :=
  ⟨bigBuf_length,
   (codec_error_amended sharpErr (fun _ => 0) bigBuf "shot.png".data "boom" "boom" "boom"
      bigBuf_length).1 (by decide) rfl (fun _ _ _ => rfl)⟩

theorem ratFloorNat_mul_le (c : Nat) (s : ℚ) (h0 : 0 ≤ s) (h1 : s ≤ 1) :
    ratFloorNat ((c : ℚ) * s) ≤ c := by
  have hx : (ratFloorNat ((c : ℚ) * s) : ℚ) ≤ (c : ℚ) * s :=
    ratFloorNat_le _ (mul_nonneg (Nat.cast_nonneg c) h0)
  have hy : (c : ℚ) * s ≤ (c : ℚ) := by
    calc (c : ℚ) * s ≤ (c : ℚ) * 1 := mul_le_mul_of_nonneg_left h1 (Nat.cast_nonneg c)
    _ = c := mul_one _
  exact_mod_cast le_trans hx hy

/-- **C6** (confirmed): for every over-budget input whose pixel count
`w*h` exceeds `SHARP_PIXEL_LIMIT`, with the pre-resize scale
`s = Math.sqrt(SHARP_PIXEL_LIMIT / totalPixels) * 0.95` characterised by
the tight two-sided band `hband`/`hband2` (the floating-point computation
is correctly rounded per operation, hence within relative error `1e-10`
of the exact value by a huge margin), on every run that returns: the
pre-resize — to the box `floor(w*s) × floor(h*s)` — is the FIRST recorded
codec operation (before any encode attempt), and, given sharp's
`fit: 'inside'` contract (`hfit`: the resized output fits within the
requested box), no recorded attempt operates against dimensions whose
pixel product exceeds `SHARP_PIXEL_LIMIT`. -/
theorem pixel_ceiling_guard (S : SharpOps) (ps : Nat → ℚ) (buffer : Buffer) (fn : List Char)
    (h1 : MAX_FILE_SIZE < buffer.length)
    (hpix : SHARP_PIXEL_LIMIT < S.metaW buffer * S.metaH buffer)
    (hs0 : 0 ≤ ps (S.metaW buffer * S.metaH buffer))
    (hband : (ps (S.metaW buffer * S.metaH buffer)) ^ 2
        ≤ 9025 / 10000
            * ((SHARP_PIXEL_LIMIT : ℚ) / ((S.metaW buffer * S.metaH buffer : Nat) : ℚ))
            * (1 + 1 / 10 ^ 10))
    (hband2 : 9025 / 10000
            * ((SHARP_PIXEL_LIMIT : ℚ) / ((S.metaW buffer * S.metaH buffer : Nat) : ℚ))
            * (1 - 1 / 10 ^ 10) ≤ (ps (S.metaW buffer * S.metaH buffer)) ^ 2)
    (hfit : ∀ b w h b', S.resizePng b w h = .ok b' → S.metaW b' ≤ w ∧ S.metaH b' ≤ h) :
    ∀ r tr, compressImageIfNeeded S ps buffer fn = .ok (r, tr) →
      (∃ rest, tr = Attempt.preResize
          (ratFloorNat ((S.metaW buffer : ℚ) * ps (S.metaW buffer * S.metaH buffer)))
          (ratFloorNat ((S.metaH buffer : ℚ) * ps (S.metaW buffer * S.metaH buffer))) :: rest) ∧
      ∀ a ∈ tr, attemptPixels a ≤ SHARP_PIXEL_LIMIT := by
  intro r tr hres
  have hTpos : (0 : ℚ) < ((S.metaW buffer * S.metaH buffer : Nat) : ℚ) := by
    have h0 : 0 < S.metaW buffer * S.metaH buffer := by
      have := hpix
      simp only [SHARP_PIXEL_LIMIT] at this
      omega
    exact_mod_cast h0
  have hkey : ratFloorNat ((S.metaW buffer : ℚ) * ps (S.metaW buffer * S.metaH buffer))
      * ratFloorNat ((S.metaH buffer : ℚ) * ps (S.metaW buffer * S.metaH buffer))
      ≤ SHARP_PIXEL_LIMIT := by
    have hnw' : (ratFloorNat ((S.metaW buffer : ℚ) * ps (S.metaW buffer * S.metaH buffer)) : ℚ)
        ≤ (S.metaW buffer : ℚ) * ps (S.metaW buffer * S.metaH buffer) :=
      ratFloorNat_le _ (mul_nonneg (Nat.cast_nonneg _) hs0)
    have hnh' : (ratFloorNat ((S.metaH buffer : ℚ) * ps (S.metaW buffer * S.metaH buffer)) : ℚ)
        ≤ (S.metaH buffer : ℚ) * ps (S.metaW buffer * S.metaH buffer) :=
      ratFloorNat_le _ (mul_nonneg (Nat.cast_nonneg _) hs0)
    have hmul : ((ratFloorNat ((S.metaW buffer : ℚ) * ps (S.metaW buffer * S.metaH buffer))
          * ratFloorNat ((S.metaH buffer : ℚ) * ps (S.metaW buffer * S.metaH buffer)) : ℕ) : ℚ)
        ≤ ((S.metaW buffer : ℚ) * ps (S.metaW buffer * S.metaH buffer))
          * ((S.metaH buffer : ℚ) * ps (S.metaW buffer * S.metaH buffer)) := by
      push_cast
      exact mul_le_mul hnw' hnh' (Nat.cast_nonneg _)
        (mul_nonneg (Nat.cast_nonneg _) hs0)
    have heq : ((S.metaW buffer : ℚ) * ps (S.metaW buffer * S.metaH buffer))
          * ((S.metaH buffer : ℚ) * ps (S.metaW buffer * S.metaH buffer))
        = (ps (S.metaW buffer * S.metaH buffer)) ^ 2
          * ((S.metaW buffer * S.metaH buffer : Nat) : ℚ) := by
      push_cast
      ring
    have hb : (ps (S.metaW buffer * S.metaH buffer)) ^ 2
          * ((S.metaW buffer * S.metaH buffer : Nat) : ℚ)
        ≤ 9025 / 10000
            * ((SHARP_PIXEL_LIMIT : ℚ) / ((S.metaW buffer * S.metaH buffer : Nat) : ℚ))
            * (1 + 1 / 10 ^ 10) * ((S.metaW buffer * S.metaH buffer : Nat) : ℚ) :=
      mul_le_mul_of_nonneg_right hband (le_of_lt hTpos)
    have hcancel : ((SHARP_PIXEL_LIMIT : ℚ) / ((S.metaW buffer * S.metaH buffer : Nat) : ℚ))
        * ((S.metaW buffer * S.metaH buffer : Nat) : ℚ) = (SHARP_PIXEL_LIMIT : ℚ) :=
      div_mul_cancel₀ _ (ne_of_gt hTpos)
    have hc : 9025 / 10000
            * ((SHARP_PIXEL_LIMIT : ℚ) / ((S.metaW buffer * S.metaH buffer : Nat) : ℚ))
            * (1 + 1 / 10 ^ 10) * ((S.metaW buffer * S.metaH buffer : Nat) : ℚ)
        = 9025 / 10000 * (SHARP_PIXEL_LIMIT : ℚ) * (1 + 1 / 10 ^ 10) := by
      rw [mul_right_comm (9025 / 10000
            * ((SHARP_PIXEL_LIMIT : ℚ) / ((S.metaW buffer * S.metaH buffer : Nat) : ℚ)))
          (1 + 1 / 10 ^ 10) ((S.metaW buffer * S.metaH buffer : Nat) : ℚ),
        mul_assoc (9025 / 10000 : ℚ)
          ((SHARP_PIXEL_LIMIT : ℚ) / ((S.metaW buffer * S.metaH buffer : Nat) : ℚ))
          ((S.metaW buffer * S.metaH buffer : Nat) : ℚ),
        hcancel]
    have hd : 9025 / 10000 * (SHARP_PIXEL_LIMIT : ℚ) * (1 + 1 / 10 ^ 10)
        ≤ (SHARP_PIXEL_LIMIT : ℚ) := by
      norm_num [SHARP_PIXEL_LIMIT]
    have hfin : ((ratFloorNat ((S.metaW buffer : ℚ) * ps (S.metaW buffer * S.metaH buffer))
          * ratFloorNat ((S.metaH buffer : ℚ) * ps (S.metaW buffer * S.metaH buffer)) : ℕ) : ℚ)
        ≤ (SHARP_PIXEL_LIMIT : ℚ) := by linarith
    exact_mod_cast hfin
  cases hr : S.resizePng buffer
      (ratFloorNat ((S.metaW buffer : ℚ) * ps (S.metaW buffer * S.metaH buffer)))
      (ratFloorNat ((S.metaH buffer : ℚ) * ps (S.metaW buffer * S.metaH buffer))) with
  | error e =>
    have hmain : compressImageIfNeeded S ps buffer fn = .error e := by
      simp only [compressImageIfNeeded]
      rw [if_neg (Nat.not_le.mpr h1)]
      have hpre : preStepResult S ps buffer = .error e := by
        simp only [preStepResult]
        rw [if_pos hpix, hr]
      rw [hpre]
    rw [hmain] at hres
    simp at hres
  | ok wb =>
    have hpre : preStepResult S ps buffer
        = .ok (wb, [Attempt.preResize
            (ratFloorNat ((S.metaW buffer : ℚ) * ps (S.metaW buffer * S.metaH buffer)))
            (ratFloorNat ((S.metaH buffer : ℚ) * ps (S.metaW buffer * S.metaH buffer)))]) := by
      simp only [preStepResult]
      rw [if_pos hpix, hr]
    obtain ⟨hfw, hfh⟩ := hfit buffer _ _ wb hr
    have hwbpix : S.metaW wb * S.metaH wb ≤ SHARP_PIXEL_LIMIT :=
      le_trans (Nat.mul_le_mul hfw hfh) hkey
    have hbound : ∀ a, (a ∈ [Attempt.preResize
            (ratFloorNat ((S.metaW buffer : ℚ) * ps (S.metaW buffer * S.metaH buffer)))
            (ratFloorNat ((S.metaH buffer : ℚ) * ps (S.metaW buffer * S.metaH buffer)))]
          ∨ (∃ q' sz, a = Attempt.jpeg (S.metaW wb) (S.metaH wb) q' sz)
          ∨ (∃ s ∈ jsScaleSeq, ∃ sz, a = Attempt.scaleJpeg
              (ratFloorNat ((S.metaW wb : ℚ) * s)) (ratFloorNat ((S.metaH wb : ℚ) * s)) 80 sz))
        → attemptPixels a ≤ SHARP_PIXEL_LIMIT := by
      intro a ha
      rcases ha with ha | ha | ha
      · rw [List.mem_singleton] at ha
        subst ha
        exact hkey
      · obtain ⟨q', sz, ha⟩ := ha
        subst ha
        exact hwbpix
      · obtain ⟨s, hsmem, sz, ha⟩ := ha
        subst ha
        obtain ⟨hsp0, hsp1⟩ := jsScaleSeq_unit s hsmem
        have hwle := ratFloorNat_mul_le (S.metaW wb) s hsp0 hsp1
        have hhle := ratFloorNat_mul_le (S.metaH wb) s hsp0 hsp1
        exact le_trans (Nat.mul_le_mul hwle hhle) hwbpix
    rcases hq : qualityLoop S wb (jsReplaceFirst fn pngExt jpgExt) 8 90 wb
        [Attempt.preResize
            (ratFloorNat ((S.metaW buffer : ℚ) * ps (S.metaW buffer * S.metaH buffer)))
            (ratFloorNat ((S.metaH buffer : ℚ) * ps (S.metaW buffer * S.metaH buffer)))]
        with ⟨oq, bq, trq⟩
    obtain ⟨Δ1, hΔ1⟩ := qualityLoop_trace_grow S wb (jsReplaceFirst fn pngExt jpgExt) 8 90 wb
        [Attempt.preResize
            (ratFloorNat ((S.metaW buffer : ℚ) * ps (S.metaW buffer * S.metaH buffer)))
            (ratFloorNat ((S.metaH buffer : ℚ) * ps (S.metaW buffer * S.metaH buffer)))]
    rw [hq] at hΔ1
    simp only at hΔ1
    cases oq with
    | some r' =>
      have hmain := compress_over_quality_some S ps buffer fn wb _ r' bq trq h1 hpre hq
      rw [hmain] at hres
      simp only [Except.ok.injEq, Prod.mk.injEq] at hres
      obtain ⟨hr1, hr2⟩ := hres
      subst hr2
      constructor
      · exact ⟨Δ1, by simpa using hΔ1⟩
      · intro a ha
        have hm := qualityLoop_mem S wb (jsReplaceFirst fn pngExt jpgExt) 8 90 wb _ a
          (by rw [hq]; exact ha)
        rcases hm with hm | hm
        · exact hbound a (Or.inl hm)
        · exact hbound a (Or.inr (Or.inl hm))
    | none =>
      rcases hs : scaleLoop S wb (jsReplaceFirst fn pngExt jpgExt) (S.metaW wb) (S.metaH wb)
          jsScaleSeq bq trq with ⟨os, bs, trs⟩
      obtain ⟨Δ2, hΔ2⟩ := scaleLoop_trace_grow S wb (jsReplaceFirst fn pngExt jpgExt)
        (S.metaW wb) (S.metaH wb) jsScaleSeq bq trq
      rw [hs] at hΔ2
      simp only at hΔ2
      have htrs : ∀ a ∈ trs, attemptPixels a ≤ SHARP_PIXEL_LIMIT := by
        intro a ha
        have hm := scaleLoop_mem S wb (jsReplaceFirst fn pngExt jpgExt)
          (S.metaW wb) (S.metaH wb) jsScaleSeq bq trq a (by rw [hs]; exact ha)
        rcases hm with hm | hm
        · have hm2 := qualityLoop_mem S wb (jsReplaceFirst fn pngExt jpgExt) 8 90 wb _ a
            (by rw [hq]; exact hm)
          rcases hm2 with hm2 | hm2
          · exact hbound a (Or.inl hm2)
          · exact hbound a (Or.inr (Or.inl hm2))
        · exact hbound a (Or.inr (Or.inr hm))
      have hlead : ∃ rest, trs = Attempt.preResize
          (ratFloorNat ((S.metaW buffer : ℚ) * ps (S.metaW buffer * S.metaH buffer)))
          (ratFloorNat ((S.metaH buffer : ℚ) * ps (S.metaW buffer * S.metaH buffer))) :: rest := by
        refine ⟨Δ1 ++ Δ2, ?_⟩
        rw [hΔ2, hΔ1]
        simp
      cases os with
      | some r' =>
        have hmain := compress_over_scale_some S ps buffer fn wb _ bq trq r' bs trs h1 hpre hq hs
        rw [hmain] at hres
        simp only [Except.ok.injEq, Prod.mk.injEq] at hres
        obtain ⟨hr1, hr2⟩ := hres
        subst hr2
        exact ⟨hlead, htrs⟩
      | none =>
        have hmain := compress_over_best S ps buffer fn wb _ bq trq bs trs h1 hpre hq hs
        rw [hmain] at hres
        simp only [Except.ok.injEq, Prod.mk.injEq] at hres
        obtain ⟨hr1, hr2⟩ := hres
        subst hr2
        exact ⟨hlead, htrs⟩

/-- An over-budget input whose first two bytes carry its dimensions
32766 × 32766 (pixel count exactly 4 × SHARP_PIXEL_LIMIT = 1073610756). -/
def bigPixBuf : Buffer := 32766 :: 32766 :: List.replicate MAX_FILE_SIZE 0

theorem bigPixBuf_length : MAX_FILE_SIZE < bigPixBuf.length := by
  rw [bigPixBuf, List.length_cons, List.length_cons, List.length_replicate]
  omega

/-- Codec oracle reading image dimensions from the first two bytes of a
buffer; its resize chain outputs a two-byte buffer carrying the target
box, so sharp's fit-inside contract holds exactly. -/
def sharpDims : SharpOps where
  metaW b := b.headD 0
  metaH b := (b.drop 1).headD 0
  resizePng _ w h := .ok [w, h]
  jpegQ _ _ := .ok [0]
  resizeJpeg _ _ _ _ := .ok [0]

/-- Witness for C6 at the 32766×32766 input with the concrete scale
19/40 = 0.475 (the exact value of sqrt(1/4)·0.95, which the FP
computation is within 1e-10 of): the pre-resize box is 15563 × 15563,
under the pixel ceiling. -/
theorem pixel_ceiling_guard_witness :
    MAX_FILE_SIZE < bigPixBuf.length ∧
    SHARP_PIXEL_LIMIT < sharpDims.metaW bigPixBuf * sharpDims.metaH bigPixBuf ∧
    (∀ r tr, compressImageIfNeeded sharpDims (fun _ => (19 : ℚ) / 40) bigPixBuf
        "shot.png".data = .ok (r, tr) →
      (∃ rest, tr = Attempt.preResize
          (ratFloorNat ((sharpDims.metaW bigPixBuf : ℚ) * ((19 : ℚ) / 40)))
          (ratFloorNat ((sharpDims.metaH bigPixBuf : ℚ) * ((19 : ℚ) / 40))) :: rest) ∧
      ∀ a ∈ tr, attemptPixels a ≤ SHARP_PIXEL_LIMIT) ∧
    ratFloorNat ((32766 : ℚ) * ((19 : ℚ) / 40)) = 15563 ∧
    15563 * 15563 ≤ SHARP_PIXEL_LIMIT :=
  ⟨bigPixBuf_length, by decide,
   pixel_ceiling_guard sharpDims (fun _ => (19 : ℚ) / 40) bigPixBuf "shot.png".data
     bigPixBuf_length (by decide) (by norm_num)
     (by
       rw [show sharpDims.metaW bigPixBuf = 32766 from rfl,
         show sharpDims.metaH bigPixBuf = 32766 from rfl]
       norm_num [SHARP_PIXEL_LIMIT])
     (by
       rw [show sharpDims.metaW bigPixBuf = 32766 from rfl,
         show sharpDims.metaH bigPixBuf = 32766 from rfl]
       norm_num [SHARP_PIXEL_LIMIT])
     (by
       intro b w h b' hb
       cases hb
       constructor <;> simp [sharpDims]),
   by
     have hfl : (⌊(32766 : ℚ) * ((19 : ℚ) / 40)⌋ : ℤ) = 15563 := by
       rw [Int.floor_eq_iff] <;> norm_num
     unfold ratFloorNat
     rw [hfl]
     rfl,
   by decide⟩

/-- **C7** (confirmed): in the geometric-reduction stage (entered when no
stage-3 quality succeeds), each attempt resizes the working buffer's
pre-stage-3 dimensions `cw × ch` (`currentMetadata`, read once before the
loop — never cumulatively shrunk ones) and re-encodes at fixed quality
80; the attempted boxes are exactly the first-success-prefix of
`floor(cw·m/10) × floor(ch·m/10)` for m = 9, 8, 7, 6, 5, 4, 3 — the
nominal scales 0.9 down to 0.3 INCLUSIVE in steps of 0.1 (the loop
variable's double drift, ≤ 2e-16 above nominal, never changes the
floored dimensions for dimensions ≤ 10^9) — stopping at the first scale
whose encoded size meets the budget. -/
theorem scale_search (S : SharpOps) (ps : Nat → ℚ) (buffer : Buffer)
    (fn : List Char) (wb : Buffer) (tr0 : List Attempt)
    (jf : Nat → Buffer) (rf : Nat → Nat → Nat → Buffer)
    (h1 : MAX_FILE_SIZE < buffer.length)
    (hpre : preStepResult S ps buffer = .ok (wb, tr0))
    (hjf : ∀ q, S.jpegQ wb q = .ok (jf q))
    (hrf : ∀ w h q, S.resizeJpeg wb w h q = .ok (rf w h q))
    (hqfail : ∀ q ∈ [90, 80, 70, 60, 50, 40, 30], ¬ ((jf q).length ≤ MAX_FILE_SIZE))
    (hcw : S.metaW wb ≤ 10 ^ 9) (hch : S.metaH wb ≤ 10 ^ 9) :
    ∃ r tr, compressImageIfNeeded S ps buffer fn = .ok (r, tr) ∧
      scaleBoxes tr
        = upToFirst (fun b => decide ((rf b.1 b.2.1 b.2.2).length ≤ MAX_FILE_SIZE))
            ([9, 8, 7, 6, 5, 4, 3].map
              (fun m => (S.metaW wb * m / 10, S.metaH wb * m / 10, 80))) := by
  obtain ⟨hq0, hs0⟩ := preStep_ok_shape S ps buffer wb tr0 hpre
  have hq3 := qualityLoop_all_fail S wb (jsReplaceFirst fn pngExt jpgExt) jf hjf 8 90 wb tr0
    (by rw [show qualSeq 8 90 = [90, 80, 70, 60, 50, 40, 30] from rfl]; exact hqfail)
  rcases hq : qualityLoop S wb (jsReplaceFirst fn pngExt jpgExt) 8 90 wb tr0 with ⟨oq, bq, trq⟩
  rw [hq] at hq3
  obtain ⟨hoq, _⟩ := hq3
  simp only at hoq
  subst hoq
  have hsb : scaleBoxes trq = [] := by
    have := qualityLoop_scaleBoxes S wb (jsReplaceFirst fn pngExt jpgExt) 8 90 wb tr0
    rw [hq] at this
    simp only at this
    rw [this, hs0]
  have htr4 := scaleLoop_total_trace S wb (jsReplaceFirst fn pngExt jpgExt)
    (S.metaW wb) (S.metaH wb) rf hrf jsScaleSeq bq trq
  rw [hsb, List.nil_append] at htr4
  have hfuse : (upToFirst (fun s => decide
        ((rf (ratFloorNat ((S.metaW wb : ℚ) * s)) (ratFloorNat ((S.metaH wb : ℚ) * s))
           80).length ≤ MAX_FILE_SIZE)) jsScaleSeq).map
      (fun s => (ratFloorNat ((S.metaW wb : ℚ) * s), ratFloorNat ((S.metaH wb : ℚ) * s), 80))
      = upToFirst (fun b => decide ((rf b.1 b.2.1 b.2.2).length ≤ MAX_FILE_SIZE))
          ([9, 8, 7, 6, 5, 4, 3].map
            (fun m => (S.metaW wb * m / 10, S.metaH wb * m / 10, 80))) := by
    rw [← jsScale_boxes (S.metaW wb) (S.metaH wb) hcw hch]
    rw [upToFirst_map
      (fun s => (ratFloorNat ((S.metaW wb : ℚ) * s), ratFloorNat ((S.metaH wb : ℚ) * s), 80))
      (fun b => decide ((rf b.1 b.2.1 b.2.2).length ≤ MAX_FILE_SIZE)) jsScaleSeq]
  rw [hfuse] at htr4
  rcases hs : scaleLoop S wb (jsReplaceFirst fn pngExt jpgExt) (S.metaW wb) (S.metaH wb)
      jsScaleSeq bq trq with ⟨os, bs, trs⟩
  rw [hs] at htr4
  simp only at htr4
  cases os with
  | some r =>
    exact ⟨r, trs,
      compress_over_scale_some S ps buffer fn wb tr0 bq trq r bs trs h1 hpre hq hs, htr4⟩
  | none =>
    exact ⟨_, trs, compress_over_best S ps buffer fn wb tr0 bq trq bs trs h1 hpre hq hs, htr4⟩

/-- Witness for C7 at the concrete 10×10 all-over-budget codec: all seven
nominal boxes 9×9 … 3×3 are attempted. -/
theorem scale_search_witness :
    MAX_FILE_SIZE < bigBuf.length ∧
    (∃ r tr, compressImageIfNeeded sharpAllBig (fun _ => 0) bigBuf "shot.png".data
        = .ok (r, tr) ∧
      scaleBoxes tr
        = upToFirst (fun b : Nat × Nat × Nat => decide ((bigBuf : Buffer).length ≤ MAX_FILE_SIZE))
            ([9, 8, 7, 6, 5, 4, 3].map (fun m => (10 * m / 10, 10 * m / 10, 80)))) ∧
    upToFirst (fun b : Nat × Nat × Nat => decide ((bigBuf : Buffer).length ≤ MAX_FILE_SIZE))
        ([9, 8, 7, 6, 5, 4, 3].map (fun m => (10 * m / 10, 10 * m / 10, 80)))
      = [(9, 9, 80), (8, 8, 80), (7, 7, 80), (6, 6, 80), (5, 5, 80), (4, 4, 80), (3, 3, 80)] :=
  ⟨bigBuf_length,
   scale_search sharpAllBig (fun _ => 0) bigBuf "shot.png".data bigBuf []
     (fun _ => bigBuf) (fun _ _ _ => bigBuf) bigBuf_length
     (preStep_no_resize _ _ _ (by decide)) (fun _ => rfl) (fun _ _ _ => rfl)
     (fun _ _ => bigBuf_not_le) (by decide) (by decide),
   by
     have hb : decide (bigBuf.length ≤ MAX_FILE_SIZE) = false := decide_eq_false bigBuf_not_le
     simp [upToFirst, hb]⟩

/-- Witness for C10 at a filename containing `.png` twice: only the first
occurrence is replaced; a `.PNG` filename is returned unchanged. -/
theorem filename_replacement_witness :
    MAX_FILE_SIZE < bigBuf.length ∧
    (∃ r tr, compressImageIfNeeded sharpSmallOk (fun _ => 0) bigBuf "pic.png.png".data
        = .ok (r, tr) ∧
      r.filename = jsReplaceFirst "pic.png.png".data pngExt jpgExt ∧
      ((∀ a b, "pic.png.png".data ≠ a ++ pngExt ++ b) → r.filename = "pic.png.png".data) ∧
      (∀ a b, "pic.png.png".data = a ++ pngExt ++ b →
        (∀ j < a.length, ¬ pngExt.isPrefixOf ("pic.png.png".data.drop j)) →
        r.filename = a ++ jpgExt ++ b)) ∧
    jsReplaceFirst "pic.png.png".data pngExt jpgExt = "pic.jpg.png".data ∧
    jsReplaceFirst "pic.PNG".data pngExt jpgExt = "pic.PNG".data :=
  ⟨bigBuf_length,
   filename_replacement sharpSmallOk (fun _ => 0) bigBuf "pic.png.png".data bigBuf []
     bigBuf_length (preStep_no_resize _ _ _ (by decide)),
   by decide, by decide⟩
